import Mathlib

/-!
# Checker harness: `judger/checkers/testlib.h`

A shallow embedding of the simplified `testlib.h` of the judger: the exit-code
constants, the `std::ifstream` state the readers work on, the `InStream`
reading methods, `registerTestlibCmd` and `quitf`.

Modelling conventions.

* A file is a list of `char`s; each list element stands for one `char` of the
  stream.
* An `std::ifstream` is its unread remainder together with `eofbit` and
  `failbit` (no device error is modelled, so `badbit` is never set), and
  whether a file is attached.
* `exit` ends the process: the outcome of a function that may call it is an
  `Except Terminated _`, where `Terminated` records the exit code and what the
  call wrote to standard output and standard error before exiting. `quitf`
  always calls it, so its outcome is a `Terminated`.
* The methods of `InStream` take the handle and give back, next to the
  outcome, the handle as it is after the call (at return, or at the call of
  `exit`); `registerTestlibCmd` does the same with the three global streams.
* The conversions of the standard library follow the C++ standard for the
  classic locale and the decimal base; the conversion to `double` is a
  parameter.
-/

namespace Testlib

/-! ## Exit codes (testlib.h, lines 21-27) -/

def _ok : Int := 0
def _wa : Int := 1
def _pe : Int := 2
def _fail : Int := 3
def _dirt : Int := 4
def _points : Int := 7

/-- What a call that ended the process with `exit` leaves to be observed. -/
structure Terminated where
  exitCode : Int
  cout : List Char
  cerr : List Char
deriving DecidableEq, Repr

/-- The exit status the parent process (the judge) gets from a process that
called `exit(code)`: the low 8 bits of `code`, a number from 0 to 255. -/
def Terminated.exitStatus (t : Terminated) : Int := t.exitCode % 256

/-- The character written by `std::endl`. -/
def endl : List Char := [Char.ofNat 10]

/-! ## `std::ifstream` -/

/-- The state of an `std::ifstream`: whether a file is attached, the chars of
the file not yet read, and the state bits. -/
structure IfStream where
  is_open : Bool
  rest : List Char
  eofbit : Bool
  failbit : Bool
deriving DecidableEq, Repr

/-- A default-constructed `std::ifstream` (the globals `inf`, `ouf`, `ans`). -/
def IfStream.fresh : IfStream :=
  { is_open := false, rest := [], eofbit := false, failbit := false }

def IfStream.good (s : IfStream) : Bool := !s.eofbit && !s.failbit

def IfStream.eof (s : IfStream) : Bool := s.eofbit

def IfStream.fail (s : IfStream) : Bool := s.failbit

/-- The member `setstate`: the given bits are added to the state. -/
def IfStream.setstate (s : IfStream) (eofbit failbit : Bool) : IfStream :=
  { s with eofbit := s.eofbit || eofbit, failbit := s.failbit || failbit }

/-- The member `open(path, std::ios::in)` against a file system `fs`, which
gives the content of the files that can be opened for reading. Opening fails
when a file is already attached or the file cannot be opened; a failure sets
`failbit`, a success clears the state. -/
def IfStream.openFile (s : IfStream) (fs : List Char → Option (List Char))
    (path : List Char) : IfStream :=
  if s.is_open then s.setstate false true
  else
    match fs path with
    | some content => { is_open := true, rest := content, eofbit := false, failbit := false }
    | none => s.setstate false true

/-- The whitespace of the classic locale (`std::isspace`): space, `\t`, `\n`,
`\v`, `\f`, `\r`. -/
def isSpace (c : Char) : Bool :=
  c = Char.ofNat 32 || c = Char.ofNat 9 || c = Char.ofNat 10 || c = Char.ofNat 11 ||
    c = Char.ofNat 12 || c = Char.ofNat 13

/-- The decimal digits `0` to `9`. -/
def isDigit (c : Char) : Bool := 48 ≤ c.toNat && c.toNat ≤ 57

/-- The `sentry` every input function constructs first. A stream that is not
`good` gets `failbit`. Otherwise, unless `noskipws`, leading whitespace is
extracted; reaching the end of the file while doing so sets `eofbit` and
`failbit`. The boolean tells whether input may go on. -/
def IfStream.sentry (s : IfStream) (noskipws : Bool) : Bool × IfStream :=
  if s.good then
    if noskipws then (true, s)
    else
      let r := s.rest.dropWhile isSpace
      if r.isEmpty then (false, { s with rest := r, eofbit := true, failbit := true })
      else (true, { s with rest := r })
  else (false, s.setstate false true)

/-- The manipulator `std::ws` (`stream >> std::ws`): behind a `sentry` that
does not skip, whitespace is extracted up to the first other char; reaching
the end of the file sets `eofbit`. -/
def IfStream.ws (s : IfStream) : IfStream :=
  let (ok, s1) := s.sentry true
  if ok then
    let r := s1.rest.dropWhile isSpace
    ({ s1 with rest := r }).setstate r.isEmpty false
  else s1

/-- The value of a run of decimal digits. -/
def digitsValue (ds : List Char) : Nat :=
  ds.foldl (fun acc c => 10 * acc + (c.toNat - 48)) 0

def INT_MIN : Int := -2147483648
def INT_MAX : Int := 2147483647
def LONG_MIN : Int := -9223372036854775808
def LONG_MAX : Int := 9223372036854775807

/-- The value of an `int` expression whose mathematical value is `x`: a value
out of the range of the 32-bit `int` wraps around modulo `2^32`. -/
def wrapInt (x : Int) : Int := (x + 2147483648) % 4294967296 - 2147483648

/-- The conversion `num_get::get(..., long&)` for the decimal base on the
chars `r` that follow the skipped whitespace: an optional sign and the longest
run of digits are extracted. Gives the value stored, whether the conversion
failed (no digit, or a value that does not fit a `long`, which stores the
nearest bound), and the chars left. -/
def numGetLong (r : List Char) : Int × Bool × List Char :=
  let neg : Bool := r.head? = some (Char.ofNat 45)
  let signed : Bool := neg || r.head? = some (Char.ofNat 43)
  let r1 := if signed then r.tail else r
  let ds := r1.takeWhile isDigit
  let r2 := r1.dropWhile isDigit
  if ds.isEmpty then (0, true, r2)
  else
    let v : Int := if neg then -(digitsValue ds : Int) else (digitsValue ds : Int)
    if v < LONG_MIN then (LONG_MIN, true, r2)
    else if v > LONG_MAX then (LONG_MAX, true, r2)
    else (v, false, r2)

/-- The extraction `stream >> result` for `int& result`: the value is read as a
`long`; a value outside the range of `int` stores the nearest bound and sets
`failbit`. `eofbit` is set when the conversion stopped at the end of the file.
When the `sentry` fails `result` is left as it was. -/
def IfStream.extractInt (s : IfStream) (result : Int) : Int × IfStream :=
  let (ok, s1) := s.sentry false
  if ok then
    let (l, err, r) := numGetLong s1.rest
    let s2 := { s1 with rest := r }
    if l < INT_MIN then (INT_MIN, s2.setstate r.isEmpty true)
    else if l > INT_MAX then (INT_MAX, s2.setstate r.isEmpty true)
    else (l, s2.setstate r.isEmpty err)
  else (result, s1)

/-- The extraction `stream >> result` for `std::string& result`: the longest
run of chars that are not whitespace is extracted; `eofbit` is set when the
end of the file stopped it, `failbit` when no char was extracted. When the
`sentry` fails `result` is left as it was. -/
def IfStream.extractString (s : IfStream) (result : List Char) : List Char × IfStream :=
  let (ok, s1) := s.sentry false
  if ok then
    let tok := s1.rest.takeWhile (fun c => !isSpace c)
    let r := s1.rest.dropWhile (fun c => !isSpace c)
    (tok, ({ s1 with rest := r }).setstate r.isEmpty tok.isEmpty)
  else (result, s1)

/-- The extraction `stream >> result` for `double& result`. The conversion
`num_get::get(..., double&)` of the standard library is the parameter
`numGet`: from the chars that follow the skipped whitespace it tells how many
chars it extracts, the value it stores and whether it failed. `eofbit` is set
when the conversion stopped at the end of the file. -/
def IfStream.extractDouble {D : Type} (numGet : List Char → Nat × D × Bool)
    (s : IfStream) (result : D) : D × IfStream :=
  let (ok, s1) := s.sentry false
  if ok then
    let (n, d, err) := numGet s1.rest
    let r := s1.rest.drop n
    (d, ({ s1 with rest := r }).setstate r.isEmpty err)
  else (result, s1)

/-- The function `std::getline(stream, result)`: behind a `sentry` that does
not skip, chars are extracted up to the next `\n`, which is extracted and
dropped, or up to the end of the file, which sets `eofbit`; `failbit` is set
when no char at all was extracted. (The bound `max_size` of a string is out of
reach of a file and is not modelled.) -/
def IfStream.getline (s : IfStream) (result : List Char) : List Char × IfStream :=
  let (ok, s1) := s.sentry true
  if ok then
    let line := s1.rest.takeWhile (fun c => c != Char.ofNat 10)
    match s1.rest.dropWhile (fun c => c != Char.ofNat 10) with
    | [] => (line, ({ s1 with rest := [] }).setstate true line.isEmpty)
    | _ :: r => (line, { s1 with rest := r })
  else (result, s1)

/-! ## `InStream` (testlib.h, lines 37-114) -/

/-- The class `InStream`: the stream it refers to (held by value here), its
name and its read counter. The counter is a 32-bit `int`: `readCount++` is
`wrapInt (readCount + 1)`, which is `readCount + 1` below `INT_MAX`. -/
structure InStream where
  stream : IfStream
  name : List Char
  readCount : Int
deriving DecidableEq, Repr

/-- The constructor of line 52. -/
def InStream.mk0 (s : IfStream) (name : List Char) : InStream :=
  { stream := s, name := name, readCount := 0 }

/-- The method `readInt` (lines 54-66). The local `result` is not initialised;
it is returned only after the extraction has stored a value. -/
def InStream.readInt (self : InStream) : Except Terminated Int × InStream :=
  let self := { self with readCount := wrapInt (self.readCount + 1) }
  let (result, stream) := self.stream.extractInt 0
  let self := { self with stream := stream }
  if stream.fail then
    if stream.eof then
      (.error { exitCode := _pe, cout := [],
                cerr := "Unexpected EOF when reading integer from ".toList ++ (self.name ++ endl) },
       self)
    else
      (.error { exitCode := _pe, cout := [],
                cerr := "Failed to read integer from ".toList ++ (self.name ++ endl) },
       self)
  else (.ok result, self)

/-- The method `readString` (lines 68-80). -/
def InStream.readString (self : InStream) : Except Terminated (List Char) × InStream :=
  let self := { self with readCount := wrapInt (self.readCount + 1) }
  let (result, stream) := self.stream.extractString []
  let self := { self with stream := stream }
  if stream.fail then
    if stream.eof then
      (.error { exitCode := _pe, cout := [],
                cerr := "Unexpected EOF when reading string from ".toList ++ (self.name ++ endl) },
       self)
    else
      (.error { exitCode := _pe, cout := [],
                cerr := "Failed to read string from ".toList ++ (self.name ++ endl) },
       self)
  else (.ok result, self)

/-- The method `readDouble` (lines 82-94), for a conversion `numGet` of the
standard library. The local `result` is not initialised; it is returned only
after the extraction has stored a value. -/
def InStream.readDouble {D : Type} [Inhabited D] (numGet : List Char → Nat × D × Bool)
    (self : InStream) : Except Terminated D × InStream :=
  let self := { self with readCount := wrapInt (self.readCount + 1) }
  let (result, stream) := self.stream.extractDouble numGet default
  let self := { self with stream := stream }
  if stream.fail then
    if stream.eof then
      (.error { exitCode := _pe, cout := [],
                cerr := "Unexpected EOF when reading double from ".toList ++ (self.name ++ endl) },
       self)
    else
      (.error { exitCode := _pe, cout := [],
                cerr := "Failed to read double from ".toList ++ (self.name ++ endl) },
       self)
  else (.ok result, self)

/-- The method `readLine` (lines 96-108). -/
def InStream.readLine (self : InStream) : Except Terminated (List Char) × InStream :=
  let self := { self with readCount := wrapInt (self.readCount + 1) }
  let (result, stream) := self.stream.getline []
  let self := { self with stream := stream }
  if stream.fail then
    if stream.eof then
      (.error { exitCode := _pe, cout := [],
                cerr := "Unexpected EOF when reading line from ".toList ++ (self.name ++ endl) },
       self)
    else
      (.error { exitCode := _pe, cout := [],
                cerr := "Failed to read line from ".toList ++ (self.name ++ endl) },
       self)
  else (.ok result, self)

/-- The method `seekEof` (lines 110-113). It has no path to `exit`. -/
def InStream.seekEof (self : InStream) : Bool × InStream :=
  let stream := self.stream.ws
  (stream.eof, { self with stream := stream })

/-- The states of a handle a checker can come to: the handle is made on a
stream that has just been opened on a file, and every further state is the
one a read that returned, or a call of `seekEof`, leaves. (A read that fails
ends the process.) -/
inductive Reachable : InStream → Prop where
  | opened (content name : List Char) :
      Reachable (InStream.mk0
        { is_open := true, rest := content, eofbit := false, failbit := false } name)
  | readInt {s s2 : InStream} {v : Int} :
      Reachable s → s.readInt = (.ok v, s2) → Reachable s2
  | readString {s s2 : InStream} {v : List Char} :
      Reachable s → s.readString = (.ok v, s2) → Reachable s2
  | readDouble {D : Type} [Inhabited D] (numGet : List Char → Nat × D × Bool)
      {s s2 : InStream} {v : D} :
      Reachable s → s.readDouble numGet = (.ok v, s2) → Reachable s2
  | readLine {s s2 : InStream} {v : List Char} :
      Reachable s → s.readLine = (.ok v, s2) → Reachable s2
  | seekEof {s : InStream} :
      Reachable s → Reachable s.seekEof.2

/-! ## `registerTestlibCmd` (testlib.h, lines 120-145) -/

/-- The three global streams `inf`, `ouf`, `ans`. -/
structure Globals where
  inf : IfStream
  ouf : IfStream
  ans : IfStream
deriving DecidableEq, Repr

/-- The globals at program start. -/
def Globals.initial : Globals :=
  { inf := IfStream.fresh, ouf := IfStream.fresh, ans := IfStream.fresh }

/-- The function `registerTestlibCmd(argc, argv)` against the file system
`fs`; `argv[i]` is `argv.getD i []`. Gives the outcome and the globals as the
call leaves them. -/
def registerTestlibCmd (fs : List Char → Option (List Char)) (argc : Int)
    (argv : List (List Char)) (g : Globals) : Except Terminated Unit × Globals :=
  if argc ≠ 4 then
    (.error { exitCode := _fail, cout := [],
              cerr := "Invalid number of arguments for checker".toList ++ (endl ++
                ("Usage: checker <input-file> <output-file> <answer-file>".toList ++ endl)) },
     g)
  else
    let g := { g with inf := g.inf.openFile fs (argv.getD 1 []) }
    let g := { g with ouf := g.ouf.openFile fs (argv.getD 2 []) }
    let g := { g with ans := g.ans.openFile fs (argv.getD 3 []) }
    if !g.inf.is_open then
      (.error { exitCode := _fail, cout := [],
                cerr := "Failed to open input file: ".toList ++ (argv.getD 1 [] ++ endl) }, g)
    else if !g.ouf.is_open then
      (.error { exitCode := _fail, cout := [],
                cerr := "Failed to open output file: ".toList ++ (argv.getD 2 [] ++ endl) }, g)
    else if !g.ans.is_open then
      (.error { exitCode := _fail, cout := [],
                cerr := "Failed to open answer file: ".toList ++ (argv.getD 3 [] ++ endl) }, g)
    else (.ok (), g)

/-! ## `quitf` (testlib.h, lines 152-176) -/

/-- The label `quitf` writes first: the `if`/`else if` chain of lines 156-168.
A code outside the six constants writes nothing. -/
def quitfLabel (exitCode : Int) : List Char :=
  if exitCode = _ok then "OK ".toList
  else if exitCode = _wa then "Wrong Answer ".toList
  else if exitCode = _pe then "Presentation Error ".toList
  else if exitCode = _fail then "FAIL ".toList
  else if exitCode = _dirt then "DIRT ".toList
  else if exitCode = _points then "points ".toList
  else []

/-- The C library call `vsnprintf(buffer, size, format, ap)`: of the text the
format expands to, at most `size - 1` chars are stored (a terminating NUL
follows them). `expansion` is the whole text the format and its arguments
expand to. -/
def vsnprintf (size : Nat) (expansion : List Char) : List Char :=
  expansion.take (size - 1)

/-- What `std::cout << buffer` writes for a `char` array: the chars before the
first NUL. -/
def cString (buffer : List Char) : List Char :=
  buffer.takeWhile (fun c => c != Char.ofNat 0)

/-- The function `quitf(exitCode, format, ...)`; `expansion` is the text that
`format` and the variadic arguments expand to. -/
def quitf (exitCode : Int) (expansion : List Char) : Terminated :=
  let label := quitfLabel exitCode
  let buffer := vsnprintf 1024 expansion
  { exitCode := exitCode
    cout := label ++ (cString buffer ++ endl)
    cerr := [] }

/-! ## The verdict table of the specification (section 6) -/

/-- The verdict kinds the specification enumerates. -/
inductive Verdict where
  | Accepted
  | WrongAnswer
  | PresentationError
  | InternalFail
  | Dirt
  | PartialScore
deriving DecidableEq, Repr

/-- The constant of `testlib.h` a checker passes to `quitf` for a kind. -/
def Verdict.code : Verdict → Int
  | .Accepted => _ok
  | .WrongAnswer => _wa
  | .PresentationError => _pe
  | .InternalFail => _fail
  | .Dirt => _dirt
  | .PartialScore => _points

/-- The exit-code column of the table of section 6 of the specification. -/
def Verdict.specExitCode : Verdict → Int
  | .Accepted => 0
  | .WrongAnswer => 1
  | .PresentationError => 2
  | .InternalFail => 3
  | .Dirt => 4
  | .PartialScore => 7

/-- The label column of the table of section 6 of the specification. -/
def Verdict.specLabel : Verdict → List Char
  | .Accepted => "OK ".toList
  | .WrongAnswer => "Wrong Answer ".toList
  | .PresentationError => "Presentation Error ".toList
  | .InternalFail => "FAIL ".toList
  | .Dirt => "DIRT ".toList
  | .PartialScore => "points ".toList

/-! ## Notions the claims are stated with -/

/-- The number a run of decimal digits denotes, most significant digit first
(the positional value, by `Nat.ofDigits`). -/
def decimalValue (ds : List Char) : Nat :=
  Nat.ofDigits 10 ((ds.map fun c => c.toNat - 48).reverse)

/-- A decimal spelling of the integer `N`: an optional sign (`+` or `-`)
followed by one or more decimal digits that denote `N`. -/
def IsSpelling (sp : List Char) (N : Int) : Prop :=
  ∃ ds : List Char, ds ≠ [] ∧ (∀ c ∈ ds, isDigit c = true) ∧
    ((sp = ds ∧ N = decimalValue ds) ∨
     (sp = Char.ofNat 43 :: ds ∧ N = decimalValue ds) ∨
     (sp = Char.ofNat 45 :: ds ∧ N = -(decimalValue ds : Int)))

/-- A run of chars that is empty or begins with a whitespace char. -/
def StartsBlank (rest : List Char) : Prop :=
  ∀ c, rest.head? = some c → isSpace c = true

/-- The invariant of the stream states a checker can come to: `eofbit` is set
only at the end of the file, and `failbit` only together with `eofbit`. -/
def IfStream.Inv (st : IfStream) : Prop :=
  (st.eofbit = true → st.rest = []) ∧ (st.failbit = true → st.eofbit = true)

/-- The chars begin with a decimal integer: an optional sign (`+` or `-`)
followed by at least one decimal digit. -/
def beginsInteger (r : List Char) : Bool :=
  let signed : Bool := r.head? = some (Char.ofNat 45) || r.head? = some (Char.ofNat 43)
  let r1 := if signed then r.tail else r
  match r1.head? with
  | some d => isDigit d
  | none => false

/-- The content of a file that holds the integers `ns`, of the 32-bit signed
range, as decimal spellings: whitespace may come first and last, and two
spellings that follow each other are separated by whitespace. -/
def HoldsIntegers : List Int → List Char → Prop
  | [], r => ∀ c ∈ r, isSpace c = true
  | n :: ns, r =>
    ∃ w sp r2 : List Char, r = w ++ (sp ++ r2) ∧ (∀ c ∈ w, isSpace c = true) ∧
      IsSpelling sp n ∧ INT_MIN ≤ n ∧ n ≤ INT_MAX ∧ StartsBlank r2 ∧ HoldsIntegers ns r2

/-- A run of `k` calls of `readInt` one after the other on a handle, as the
straight-line code of a checker makes them: the values returned, in order. The
first call that ends the process ends the run. -/
def readInts : Nat → InStream → Except Terminated (List Int) × InStream
  | 0, s => (.ok [], s)
  | k + 1, s =>
    match s.readInt with
    | (.error t, s1) => (.error t, s1)
    | (.ok v, s1) =>
      match readInts k s1 with
      | (.error t, s2) => (.error t, s2)
      | (.ok vs, s2) => (.ok (v :: vs), s2)

/-! ## The three handles (testlib.h, lines 116-118) -/

/-- The names of the three handles of a checker, `inf_`, `ouf_`, `ans_`. (The
declarations of lines 116-118 hand the constructor its arguments in the other
order; what follows holds of any three objects of the class.) -/
inductive Which where
  | inf_
  | ouf_
  | ans_
deriving DecidableEq, Repr

/-- Three handles, each with its own name, stream state and read counter. -/
structure Handles where
  inf_ : InStream
  ouf_ : InStream
  ans_ : InStream
deriving DecidableEq, Repr

def Handles.get (h : Handles) : Which → InStream
  | .inf_ => h.inf_
  | .ouf_ => h.ouf_
  | .ans_ => h.ans_

def Handles.set (h : Handles) (w : Which) (s : InStream) : Handles :=
  match w with
  | .inf_ => { h with inf_ := s }
  | .ouf_ => { h with ouf_ := s }
  | .ans_ => { h with ans_ := s }

/-- A call of a method `m` on the handle `w`: the method works on the members
of that object and gives its result. -/
def Handles.call {α : Type} (m : InStream → α × InStream) (h : Handles) (w : Which) :
    α × Handles :=
  ((m (h.get w)).1, h.set w (m (h.get w)).2)

/-! ## The sample solution (`judger/test/add_fileio.cpp`) -/

/-- The char of a decimal digit. -/
def digitChar (d : Nat) : Char := Char.ofNat (48 + d)

/-- The decimal text of a natural number, without leading zeros. -/
def showNat (n : Nat) : List Char :=
  if n = 0 then [digitChar 0] else (Nat.digits 10 n).reverse.map digitChar

/-- The insertion `fout << n` for an `int`: the decimal text, with `-` first
for a negative number. -/
def showInt (n : Int) : List Char :=
  if n < 0 then Char.ofNat 45 :: showNat n.natAbs else showNat n.natAbs

/-- The `main` of add_fileio.cpp against the file system `fs`: gives the
content it writes to `output.txt`. The locals `a` and `b` are not initialised
(0 stands for their value before the extraction). -/
def add_fileio (fs : List Char → Option (List Char)) : List Char :=
  let fin := IfStream.fresh.openFile fs "input.txt".toList
  let (a, fin) := fin.extractInt 0
  let (b, _) := fin.extractInt 0
  showInt (wrapInt (a + b)) ++ endl

/-! ## Theorems -/

/-! ### The 32-bit `int` -/

theorem wrapInt_of_range (x : Int) (h1 : INT_MIN ≤ x) (h2 : x ≤ INT_MAX) : wrapInt x = x := by
  unfold INT_MIN at h1
  unfold INT_MAX at h2
  unfold wrapInt
  omega

/-! ### Lists -/

theorem dropWhile_append_all {p : Char → Bool} (w l : List Char)
    (hw : ∀ c ∈ w, p c = true) : (w ++ l).dropWhile p = l.dropWhile p := by
  induction w with
  | nil => rfl
  | cons a t ih =>
    have ha : p a = true := hw a (List.mem_cons_self a t)
    simp only [List.cons_append, List.dropWhile_cons, ha, if_true]
    exact ih (fun c hc => hw c (List.mem_cons_of_mem a hc))

theorem takeWhile_append_all {p : Char → Bool} (w l : List Char)
    (hw : ∀ c ∈ w, p c = true) : (w ++ l).takeWhile p = w ++ l.takeWhile p := by
  induction w with
  | nil => rfl
  | cons a t ih =>
    have ha : p a = true := hw a (List.mem_cons_self a t)
    simp only [List.cons_append, List.takeWhile_cons, ha, if_true]
    rw [ih (fun c hc => hw c (List.mem_cons_of_mem a hc))]

theorem dropWhile_head_false {p : Char → Bool} (l : List Char)
    (h : ∀ c, l.head? = some c → p c = false) : l.dropWhile p = l := by
  cases l with
  | nil => rfl
  | cons a t => simp [List.dropWhile_cons, h a rfl]

theorem takeWhile_head_false {p : Char → Bool} (l : List Char)
    (h : ∀ c, l.head? = some c → p c = false) : l.takeWhile p = [] := by
  cases l with
  | nil => rfl
  | cons a t => simp [List.takeWhile_cons, h a rfl]

/-! ### The stream invariant -/

theorem Inv_of_good {st : IfStream} (h : st.good = true) : st.Inv := by
  simp only [IfStream.good, Bool.and_eq_true, Bool.not_eq_true'] at h
  constructor <;> intro h2 <;> simp_all

theorem good_of_Inv_rest {st : IfStream} (h : st.Inv) (hr : st.rest ≠ []) :
    st.good = true := by
  have h1 : st.eofbit = false := by
    cases he : st.eofbit
    · rfl
    · exact absurd (h.1 he) hr
  have h2 : st.failbit = false := by
    cases hf : st.failbit
    · rfl
    · have := h.2 hf
      simp_all
  simp [IfStream.good, h1, h2]

theorem sentry_good (s : IfStream) (b : Bool) (h : (s.sentry b).1 = true) :
    (s.sentry b).2.good = true := by
  unfold IfStream.sentry at h ⊢
  by_cases hg : s.good = true
  · cases b
    · by_cases hr : (List.dropWhile isSpace s.rest).isEmpty = true
      · simp [hg, hr] at h
      · simp only [hg, if_true, hr, Bool.false_eq_true, if_false]
        simpa [IfStream.good] using hg
    · simp [hg]
  · simp [hg] at h

theorem sentry_fail (s : IfStream) (b : Bool) (h : (s.sentry b).1 = false) :
    (s.sentry b).2.failbit = true := by
  unfold IfStream.sentry at h ⊢
  by_cases hg : s.good = true
  · cases b
    · by_cases hr : (List.dropWhile isSpace s.rest).isEmpty = true
      · simp [hg, hr]
      · simp [hg, hr] at h
    · simp [hg] at h
  · simp [hg, IfStream.setstate]

theorem sentry_Inv (s : IfStream) (b : Bool) (h : s.Inv) : (s.sentry b).2.Inv := by
  unfold IfStream.sentry
  by_cases hg : s.good = true
  · cases b
    · by_cases hr : (List.dropWhile isSpace s.rest).isEmpty = true
      · simp only [hg, if_true, hr, Bool.false_eq_true, if_false]
        exact ⟨fun _ => List.isEmpty_iff.mp hr, fun _ => rfl⟩
      · simp only [hg, if_true, hr, Bool.false_eq_true, if_false]
        apply Inv_of_good
        simpa [IfStream.good] using hg
    · simp [hg, h]
  · simp only [hg, Bool.false_eq_true, if_false]
    have he : s.eofbit = true := by
      cases hf : s.failbit
      · cases he : s.eofbit
        · simp [IfStream.good, hf, he] at hg
        · rfl
      · exact h.2 hf
    exact ⟨fun _ => h.1 he, fun _ => by simp [IfStream.setstate, he]⟩

theorem setstate_Inv_of_good (s1 : IfStream) (r : List Char) (hg : s1.good = true) :
    (({ s1 with rest := r } : IfStream).setstate r.isEmpty false).Inv := by
  simp only [IfStream.good, Bool.and_eq_true, Bool.not_eq_true'] at hg
  constructor
  · intro h
    simp only [IfStream.setstate, hg.1, Bool.false_or] at h
    exact List.isEmpty_iff.mp h
  · intro h
    simp [IfStream.setstate, hg.2] at h

theorem ws_Inv (s : IfStream) (h : s.Inv) : s.ws.Inv := by
  unfold IfStream.ws
  cases hs : s.sentry true with
  | mk ok s1 =>
    have hI : s1.Inv := by simpa [hs] using sentry_Inv s true h
    cases ok
    · simpa using hI
    · have hg : s1.good = true := by simpa [hs] using sentry_good s true (by simp [hs])
      simpa using setstate_Inv_of_good s1 _ hg

theorem Inv_of_not_fail {st : IfStream} (hf : st.failbit = false)
    (he : st.eofbit = true → st.rest = []) : st.Inv :=
  ⟨he, fun h => by simp [hf] at h⟩

theorem extractInt_Inv (s : IfStream) (x : Int)
    (hf : (s.extractInt x).2.failbit = false) : (s.extractInt x).2.Inv := by
  refine Inv_of_not_fail hf ?_
  revert hf
  unfold IfStream.extractInt
  cases hs : s.sentry false with
  | mk ok s1 =>
    cases ok
    · intro hf
      have := sentry_fail s false (by simp [hs])
      simp [hs] at this hf
      simp [this] at hf
    · have hg : s1.good = true := by simpa [hs] using sentry_good s false (by simp [hs])
      simp only [IfStream.good, Bool.and_eq_true, Bool.not_eq_true'] at hg
      simp only [if_true]
      intro _
      split_ifs <;>
        simp only [IfStream.setstate, hg.1, Bool.false_or] <;>
        exact fun h => List.isEmpty_iff.mp h

theorem extractString_Inv (s : IfStream) (x : List Char)
    (hf : (s.extractString x).2.failbit = false) : (s.extractString x).2.Inv := by
  refine Inv_of_not_fail hf ?_
  revert hf
  unfold IfStream.extractString
  cases hs : s.sentry false with
  | mk ok s1 =>
    cases ok
    · intro hf
      have := sentry_fail s false (by simp [hs])
      simp [hs] at this hf
      simp [this] at hf
    · have hg : s1.good = true := by simpa [hs] using sentry_good s false (by simp [hs])
      simp only [IfStream.good, Bool.and_eq_true, Bool.not_eq_true'] at hg
      simp only [if_true]
      intro _
      simp only [IfStream.setstate, hg.1, Bool.false_or]
      exact fun h => List.isEmpty_iff.mp h

theorem extractDouble_Inv {D : Type} (numGet : List Char → Nat × D × Bool)
    (s : IfStream) (x : D)
    (hf : (s.extractDouble numGet x).2.failbit = false) :
    (s.extractDouble numGet x).2.Inv := by
  refine Inv_of_not_fail hf ?_
  revert hf
  unfold IfStream.extractDouble
  cases hs : s.sentry false with
  | mk ok s1 =>
    cases ok
    · intro hf
      have := sentry_fail s false (by simp [hs])
      simp [hs] at this hf
      simp [this] at hf
    · have hg : s1.good = true := by simpa [hs] using sentry_good s false (by simp [hs])
      simp only [IfStream.good, Bool.and_eq_true, Bool.not_eq_true'] at hg
      simp only [if_true]
      intro _
      simp only [IfStream.setstate, hg.1, Bool.false_or]
      exact fun h => List.isEmpty_iff.mp h

theorem getline_Inv (s : IfStream) (x : List Char) (h : s.Inv) : (s.getline x).2.Inv := by
  unfold IfStream.getline
  cases hs : s.sentry true with
  | mk ok s1 =>
    have hI : s1.Inv := by simpa [hs] using sentry_Inv s true h
    cases ok
    · simpa using hI
    · have hg : s1.good = true := by simpa [hs] using sentry_good s true (by simp [hs])
      simp only [if_true]
      split
      · exact ⟨fun _ => rfl, fun _ => by simp [IfStream.setstate]⟩
      · apply Inv_of_good
        simpa [IfStream.good] using hg

theorem readInt_ok {s s2 : InStream} {v : Int} (h : s.readInt = (.ok v, s2)) :
    (s.stream.extractInt 0).2.failbit = false ∧ v = (s.stream.extractInt 0).1 ∧
    s2 = { s with readCount := wrapInt (s.readCount + 1),
                  stream := (s.stream.extractInt 0).2 } := by
  unfold InStream.readInt at h
  simp only [IfStream.fail] at h
  split_ifs at h with h1 h2
  · simp at h
  · simp at h
  · simp only [Prod.mk.injEq] at h
    exact ⟨by simpa using h1, (Except.ok.inj h.1).symm, h.2.symm⟩

theorem readString_ok {s s2 : InStream} {v : List Char} (h : s.readString = (.ok v, s2)) :
    (s.stream.extractString []).2.failbit = false ∧ v = (s.stream.extractString []).1 ∧
    s2 = { s with readCount := wrapInt (s.readCount + 1),
                  stream := (s.stream.extractString []).2 } := by
  unfold InStream.readString at h
  simp only [IfStream.fail] at h
  split_ifs at h with h1 h2
  · simp at h
  · simp at h
  · simp only [Prod.mk.injEq] at h
    exact ⟨by simpa using h1, (Except.ok.inj h.1).symm, h.2.symm⟩

theorem readDouble_ok {D : Type} [Inhabited D] (numGet : List Char → Nat × D × Bool)
    {s s2 : InStream} {v : D} (h : s.readDouble numGet = (.ok v, s2)) :
    (s.stream.extractDouble numGet default).2.failbit = false ∧
    v = (s.stream.extractDouble numGet default).1 ∧
    s2 = { s with readCount := wrapInt (s.readCount + 1),
                  stream := (s.stream.extractDouble numGet default).2 } := by
  unfold InStream.readDouble at h
  simp only [IfStream.fail] at h
  split_ifs at h with h1 h2
  · simp at h
  · simp at h
  · simp only [Prod.mk.injEq] at h
    exact ⟨by simpa using h1, (Except.ok.inj h.1).symm, h.2.symm⟩

theorem readLine_ok {s s2 : InStream} {v : List Char} (h : s.readLine = (.ok v, s2)) :
    (s.stream.getline []).2.failbit = false ∧ v = (s.stream.getline []).1 ∧
    s2 = { s with readCount := wrapInt (s.readCount + 1),
                  stream := (s.stream.getline []).2 } := by
  unfold InStream.readLine at h
  simp only [IfStream.fail] at h
  split_ifs at h with h1 h2
  · simp at h
  · simp at h
  · simp only [Prod.mk.injEq] at h
    exact ⟨by simpa using h1, (Except.ok.inj h.1).symm, h.2.symm⟩

/-- Every state a checker can come to satisfies the stream invariant. -/
theorem Reachable.inv {s : InStream} (h : Reachable s) : s.stream.Inv := by
  induction h with
  | opened content name => exact Inv_of_good rfl
  | readInt _ hr ih =>
    obtain ⟨hf, _, rfl⟩ := readInt_ok hr
    exact extractInt_Inv _ _ hf
  | readString _ hr ih =>
    obtain ⟨hf, _, rfl⟩ := readString_ok hr
    exact extractString_Inv _ _ hf
  | readDouble numGet _ hr ih =>
    obtain ⟨hf, _, rfl⟩ := readDouble_ok numGet hr
    exact extractDouble_Inv numGet _ _ hf
  | readLine _ hr ih =>
    obtain ⟨hf, _, rfl⟩ := readLine_ok hr
    exact getline_Inv _ _ ih
  | seekEof _ ih => exact ws_Inv _ ih

/-! ### Reading an integer -/

theorem foldl_digits (ds : List Char) (acc : Nat) :
    ds.foldl (fun acc c => 10 * acc + (c.toNat - 48)) acc =
      Nat.ofDigits 10 ((ds.map fun c => c.toNat - 48).reverse ++ [acc]) := by
  induction ds generalizing acc with
  | nil => simp
  | cons c t ih =>
    rw [List.foldl_cons, ih]
    simp only [List.map_cons, List.reverse_cons, List.append_assoc, List.singleton_append,
      Nat.ofDigits_append, Nat.ofDigits_cons, Nat.ofDigits_nil]
    ring

theorem digitsValue_eq_decimalValue (ds : List Char) : digitsValue ds = decimalValue ds := by
  unfold digitsValue decimalValue
  rw [foldl_digits]
  simp [Nat.ofDigits_append]

theorem isSpace_not_isDigit (c : Char) (h : isSpace c = true) : isDigit c = false := by
  simp only [isSpace, Bool.or_eq_true, decide_eq_true_eq] at h
  rcases h with ((((h | h) | h) | h) | h) | h <;> subst h <;> decide

theorem isDigit_not_isSpace (c : Char) (h : isDigit c = true) : isSpace c = false := by
  cases hs : isSpace c
  · rfl
  · rw [isSpace_not_isDigit c hs] at h
    exact absurd h (by decide)

theorem isDigit_ne_minus (c : Char) (h : isDigit c = true) : c ≠ Char.ofNat 45 := by
  rintro rfl
  exact absurd h (by decide)

theorem isDigit_ne_plus (c : Char) (h : isDigit c = true) : c ≠ Char.ofNat 43 := by
  rintro rfl
  exact absurd h (by decide)

theorem StartsBlank.not_digit {rest : List Char} (h : StartsBlank rest) :
    ∀ c, rest.head? = some c → isDigit c = false :=
  fun c hc => isSpace_not_isDigit c (h c hc)

theorem scan_digits (ds rest : List Char) (hd : ∀ c ∈ ds, isDigit c = true)
    (hrest : ∀ c, rest.head? = some c → isDigit c = false) :
    (ds ++ rest).takeWhile isDigit = ds ∧ (ds ++ rest).dropWhile isDigit = rest := by
  rw [takeWhile_append_all ds rest hd, dropWhile_append_all ds rest hd,
    takeWhile_head_false rest hrest, dropWhile_head_false rest hrest]
  simp

/-- The conversion on a spelling of a number that fits a `long`: the number,
no failure, and the chars after the spelling are left. -/
theorem numGetLong_spelling (sp rest : List Char) (N : Int) (hsp : IsSpelling sp N)
    (hrest : ∀ c, rest.head? = some c → isDigit c = false)
    (hlo : LONG_MIN ≤ N) (hhi : N ≤ LONG_MAX) :
    numGetLong (sp ++ rest) = (N, false, rest) := by
  obtain ⟨ds, hne, hd, hcase⟩ := hsp
  obtain ⟨htk, hdr⟩ := scan_digits ds rest hd hrest
  have hemp : ds.isEmpty = false := by
    cases ds with
    | nil => exact absurd rfl hne
    | cons a t => rfl
  have hval : (digitsValue ds : Int) = (decimalValue ds : Int) := by
    rw [digitsValue_eq_decimalValue]
  rcases hcase with ⟨rfl, hN⟩ | ⟨rfl, hN⟩ | ⟨rfl, hN⟩
  · cases sp with
    | nil => exact absurd rfl hne
    | cons d t =>
      have hdd : isDigit d = true := hd d (List.mem_cons_self d t)
      have h1 : d ≠ Char.ofNat 45 := isDigit_ne_minus d hdd
      have h2 : d ≠ Char.ofNat 43 := isDigit_ne_plus d hdd
      unfold numGetLong
      simp only [List.cons_append, List.head?_cons, Option.some.injEq, h1, h2, decide_False,
        Bool.or_self, Bool.false_eq_true, if_false]
      rw [← List.cons_append, htk, hdr, hemp]
      simp only [Bool.false_eq_true, if_false, hval, ← hN]
      rw [if_neg (not_lt.mpr hlo), if_neg (not_lt.mpr hhi)]
  · unfold numGetLong
    simp only [List.cons_append, List.head?_cons, Option.some.injEq, List.tail_cons]
    have h3 : (Char.ofNat 43 = Char.ofNat 45) = False := by decide
    simp only [h3, decide_False, decide_True, Bool.false_or, if_true, htk, hdr, hemp,
      Bool.false_eq_true, if_false, hval, ← hN]
    rw [if_neg (not_lt.mpr hlo), if_neg (not_lt.mpr hhi)]
  · unfold numGetLong
    simp only [List.cons_append, List.head?_cons, List.tail_cons, decide_True,
      Bool.true_or, if_true, htk, hdr, hemp, Bool.false_eq_true, if_false, hval, ← hN]
    rw [if_neg (not_lt.mpr hlo), if_neg (not_lt.mpr hhi)]

theorem IsSpelling.head {sp : List Char} {N : Int} (h : IsSpelling sp N) :
    ∃ c t, sp = c :: t ∧ isSpace c = false := by
  obtain ⟨ds, hne, hd, hcase⟩ := h
  rcases hcase with ⟨rfl, _⟩ | ⟨rfl, _⟩ | ⟨rfl, _⟩
  · cases sp with
    | nil => exact absurd rfl hne
    | cons d t => exact ⟨d, t, rfl, isDigit_not_isSpace d (hd d (List.mem_cons_self d t))⟩
  · exact ⟨_, _, rfl, by decide⟩
  · exact ⟨_, _, rfl, by decide⟩

/-- The `sentry` of a formatted input on a good stream whose remainder is
whitespace followed by a char that is not whitespace. -/
theorem sentry_skip (st : IfStream) (w : List Char) (c : Char) (t : List Char)
    (hg : st.good = true) (hw : ∀ x ∈ w, isSpace x = true) (hc : isSpace c = false)
    (hr : st.rest = w ++ c :: t) :
    st.sentry false = (true, { st with rest := c :: t }) := by
  unfold IfStream.sentry
  have hd : List.dropWhile isSpace st.rest = c :: t := by
    rw [hr, dropWhile_append_all w _ hw]
    simp [List.dropWhile_cons, hc]
  simp [hg, hd]

theorem extractInt_spelling (st : IfStream) (x N : Int) (sp w rest : List Char)
    (hlo : INT_MIN ≤ N) (hhi : N ≤ INT_MAX) (hsp : IsSpelling sp N)
    (hw : ∀ c ∈ w, isSpace c = true) (hrest : StartsBlank rest)
    (hg : st.good = true) (hr : st.rest = w ++ (sp ++ rest)) :
    st.extractInt x = (N, { st with rest := rest, eofbit := rest.isEmpty }) := by
  obtain ⟨c, t, hct, hc⟩ := hsp.head
  have hs : st.sentry false = (true, { st with rest := sp ++ rest }) := by
    have := sentry_skip st w c (t ++ rest) hg hw hc (by rw [hr, hct]; rfl)
    rw [this, hct]; rfl
  have hL1 : LONG_MIN ≤ N := le_trans (by decide) hlo
  have hL2 : N ≤ LONG_MAX := le_trans hhi (by decide)
  have hn := numGetLong_spelling sp rest N hsp hrest.not_digit hL1 hL2
  simp only [IfStream.good, Bool.and_eq_true, Bool.not_eq_true'] at hg
  unfold IfStream.extractInt
  simp only [hs, if_true, hn]
  rw [if_neg (not_lt.mpr hlo), if_neg (not_lt.mpr hhi)]
  simp [IfStream.setstate, hg.1, hg.2]

/-- C4: for every integer `N` of the 32-bit signed range, every decimal
spelling `sp` of `N`, every run `w` of whitespace and every `rest` that is
empty or begins with whitespace, `readInt` on a stream whose unread remainder
is `w ++ sp ++ rest` returns `N` (it does not end the process) and leaves
exactly `rest` unread. -/
theorem readInt_returns_spelled (N : Int) (sp w rest : List Char) (s : InStream)
    (hlo : INT_MIN ≤ N) (hhi : N ≤ INT_MAX) (hsp : IsSpelling sp N)
    (hw : ∀ c ∈ w, isSpace c = true) (hrest : StartsBlank rest)
    (hs : Reachable s) (hr : s.stream.rest = w ++ (sp ++ rest)) :
    s.readInt.1 = .ok N ∧ s.readInt.2.stream.rest = rest := by
  obtain ⟨c, t, hct, _⟩ := hsp.head
  have hg : s.stream.good = true := by
    apply good_of_Inv_rest hs.inv
    rw [hr, hct]
    simp
  have he := extractInt_spelling s.stream 0 N sp w rest hlo hhi hsp hw hrest hg hr
  have hgb := hg
  simp only [IfStream.good, Bool.and_eq_true, Bool.not_eq_true'] at hgb
  unfold InStream.readInt
  simp [he, IfStream.fail, hgb.2]

theorem readInt_returns_spelled_witness :
    (InStream.mk0 { is_open := true, rest := " -12 extra".toList, eofbit := false,
                    failbit := false } "ouf".toList).readInt.1 = .ok (-12) ∧
    (InStream.mk0 { is_open := true, rest := " -12 extra".toList, eofbit := false,
                    failbit := false } "ouf".toList).readInt.2.stream.rest = " extra".toList :=
  readInt_returns_spelled (-12) "-12".toList " ".toList " extra".toList _
    (by decide) (by decide)
    ⟨"12".toList, by decide, by decide, Or.inr (Or.inr ⟨rfl, by decide⟩)⟩
    (by decide) (by intro c hc; cases hc; decide)
    (Reachable.opened " -12 extra".toList "ouf".toList) rfl

/-! ### Reading past the end -/

theorem sentry_blank (st : IfStream) (b : Bool)
    (h : ∀ c ∈ st.rest, isSpace c = true) (hb : b = true → st.rest ≠ [] → False) :
    (st.sentry b).1 = false ∨ (b = true ∧ st.rest = [] ∧ st.sentry b = (true, st)) := by
  unfold IfStream.sentry
  by_cases hg : st.good = true
  · cases b
    · left
      have hd : List.dropWhile isSpace st.rest = [] := by
        rw [List.dropWhile_eq_nil_iff]
        exact h
      simp [hg, hd]
    · right
      refine ⟨rfl, ?_, by simp [hg]⟩
      by_contra hne
      exact hb rfl hne
  · left
    simp [hg]

theorem extractInt_blank (st : IfStream) (x : Int) (h : ∀ c ∈ st.rest, isSpace c = true) :
    (st.extractInt x).2.failbit = true := by
  have h1 : (st.sentry false).1 = false := by
    rcases sentry_blank st false h (by simp) with h1 | ⟨hb, _⟩
    · exact h1
    · exact absurd hb (by decide)
  have h2 := sentry_fail st false h1
  unfold IfStream.extractInt
  cases hs : st.sentry false with
  | mk ok s1 =>
    rw [hs] at h1 h2
    simp only at h1 h2
    subst h1
    simpa using h2

theorem extractString_blank (st : IfStream) (x : List Char)
    (h : ∀ c ∈ st.rest, isSpace c = true) : (st.extractString x).2.failbit = true := by
  have h1 : (st.sentry false).1 = false := by
    rcases sentry_blank st false h (by simp) with h1 | ⟨hb, _⟩
    · exact h1
    · exact absurd hb (by decide)
  have h2 := sentry_fail st false h1
  unfold IfStream.extractString
  cases hs : st.sentry false with
  | mk ok s1 =>
    rw [hs] at h1 h2
    simp only at h1 h2
    subst h1
    simpa using h2

theorem extractDouble_blank {D : Type} (numGet : List Char → Nat × D × Bool)
    (st : IfStream) (x : D) (h : ∀ c ∈ st.rest, isSpace c = true) :
    (st.extractDouble numGet x).2.failbit = true := by
  have h1 : (st.sentry false).1 = false := by
    rcases sentry_blank st false h (by simp) with h1 | ⟨hb, _⟩
    · exact h1
    · exact absurd hb (by decide)
  have h2 := sentry_fail st false h1
  unfold IfStream.extractDouble
  cases hs : st.sentry false with
  | mk ok s1 =>
    rw [hs] at h1 h2
    simp only at h1 h2
    subst h1
    simpa using h2

theorem getline_empty (st : IfStream) (x : List Char) (h : st.rest = []) :
    (st.getline x).2.failbit = true := by
  unfold IfStream.getline
  cases hs : st.sentry true with
  | mk ok s1 =>
    cases ok
    · have := sentry_fail st true (by simp [hs])
      simpa [hs] using this
    · have hs1 : s1 = st := by
        unfold IfStream.sentry at hs
        by_cases hg : st.good = true
        · simp only [hg, if_true, Prod.mk.injEq, true_and] at hs
          exact hs.symm
        · simp [hg] at hs
      subst hs1
      simp [h, IfStream.setstate]

theorem readInt_of_fail (s : InStream) (h : (s.stream.extractInt 0).2.failbit = true) :
    ∃ t, s.readInt.1 = .error t ∧ t.exitCode = 2 := by
  unfold InStream.readInt
  simp only [IfStream.fail, h, if_true]
  split_ifs <;> exact ⟨_, rfl, rfl⟩

theorem readString_of_fail (s : InStream) (h : (s.stream.extractString []).2.failbit = true) :
    ∃ t, s.readString.1 = .error t ∧ t.exitCode = 2 := by
  unfold InStream.readString
  simp only [IfStream.fail, h, if_true]
  split_ifs <;> exact ⟨_, rfl, rfl⟩

theorem readDouble_of_fail {D : Type} [Inhabited D] (numGet : List Char → Nat × D × Bool)
    (s : InStream) (h : (s.stream.extractDouble numGet default).2.failbit = true) :
    ∃ t, (s.readDouble numGet).1 = .error t ∧ t.exitCode = 2 := by
  unfold InStream.readDouble
  simp only [IfStream.fail, h, if_true]
  split_ifs <;> exact ⟨_, rfl, rfl⟩

theorem readLine_of_fail (s : InStream) (h : (s.stream.getline []).2.failbit = true) :
    ∃ t, s.readLine.1 = .error t ∧ t.exitCode = 2 := by
  unfold InStream.readLine
  simp only [IfStream.fail, h, if_true]
  split_ifs <;> exact ⟨_, rfl, rfl⟩

/-- C5: on a stream whose unread remainder is empty or all whitespace, each of
`readInt`, `readString` and `readDouble` ends the process with exit code 2 and
returns no value; on a stream whose unread remainder is empty, so does
`readLine`. -/
theorem read_past_end_exits (s : InStream) (h : ∀ c ∈ s.stream.rest, isSpace c = true) :
    (∃ t, s.readInt.1 = .error t ∧ t.exitCode = 2) ∧
    (∃ t, s.readString.1 = .error t ∧ t.exitCode = 2) ∧
    (∀ (D : Type) [Inhabited D] (numGet : List Char → Nat × D × Bool),
      ∃ t, (s.readDouble numGet).1 = .error t ∧ t.exitCode = 2) ∧
    (s.stream.rest = [] → ∃ t, s.readLine.1 = .error t ∧ t.exitCode = 2) :=
  ⟨readInt_of_fail s (extractInt_blank _ _ h),
   readString_of_fail s (extractString_blank _ _ h),
   fun _ _ numGet => readDouble_of_fail numGet s (extractDouble_blank numGet _ _ h),
   fun h0 => readLine_of_fail s (getline_empty _ _ h0)⟩

theorem read_past_end_exits_witness :
    (∃ t, (InStream.mk0 { is_open := true, rest := [], eofbit := false,
                          failbit := false } "ouf".toList).readInt.1 = .error t ∧
          t.exitCode = 2) :=
  (read_past_end_exits
    (InStream.mk0 { is_open := true, rest := [], eofbit := false, failbit := false }
      "ouf".toList)
    (by intro c hc; cases hc)).1

/-! ### `seekEof` -/

theorem ws_of_good (st : IfStream) (hg : st.good = true) :
    st.ws = { st with rest := st.rest.dropWhile isSpace,
                      eofbit := (st.rest.dropWhile isSpace).isEmpty } := by
  have hgb := hg
  simp only [IfStream.good, Bool.and_eq_true, Bool.not_eq_true'] at hgb
  unfold IfStream.ws IfStream.sentry
  simp [hg, IfStream.setstate, hgb.1, hgb.2]

theorem ws_of_not_good (st : IfStream) (hg : st.good = false) :
    st.ws = st.setstate false true := by
  unfold IfStream.ws IfStream.sentry
  simp [hg]

theorem Inv_not_good {st : IfStream} (h : st.Inv) (hg : st.good = false) :
    st.rest = [] ∧ st.eofbit = true := by
  have he : st.eofbit = true := by
    cases hf : st.failbit
    · cases he : st.eofbit
      · simp [IfStream.good, hf, he] at hg
      · rfl
    · exact h.2 hf
  exact ⟨h.1 he, he⟩

theorem ws_rest (st : IfStream) (h : st.Inv) : st.ws.rest = st.rest.dropWhile isSpace := by
  cases hg : st.good
  · rw [ws_of_not_good st hg]
    simp [IfStream.setstate, (Inv_not_good h hg).1]
  · rw [ws_of_good st hg]

theorem ws_eof (st : IfStream) (h : st.Inv) :
    st.ws.eof = true ↔ ∀ c ∈ st.rest, isSpace c = true := by
  cases hg : st.good
  · rw [ws_of_not_good st hg]
    obtain ⟨hr, he⟩ := Inv_not_good h hg
    simp [IfStream.eof, IfStream.setstate, he, hr]
  · rw [ws_of_good st hg]
    simp only [IfStream.eof, List.isEmpty_iff, List.dropWhile_eq_nil_iff]

/-- C6: in every state a checker can reach by reads that returned (and calls
of `seekEof`), `seekEof` gives `true` exactly when the unread remainder holds
no char other than whitespace; `seekEof` is a total function with no path to
`exit`. After `readInt` on `8 extra`, which returns 8, it gives `false`. -/
theorem seekEof_true_iff (s : InStream) (hs : Reachable s) :
    (s.seekEof.1 = true ↔ ∀ c ∈ s.stream.rest, isSpace c = true) ∧
    (InStream.mk0 { is_open := true, rest := "8 extra".toList, eofbit := false,
                    failbit := false } "ouf".toList).readInt.1 = .ok 8 ∧
    (InStream.mk0 { is_open := true, rest := "8 extra".toList, eofbit := false,
                    failbit := false } "ouf".toList).readInt.2.seekEof.1 = false := by
  refine ⟨?_, rfl, by decide⟩
  exact ws_eof s.stream hs.inv

theorem seekEof_true_iff_witness :
    ((InStream.mk0 { is_open := true, rest := " \n".toList, eofbit := false,
                     failbit := false } "ouf".toList).seekEof.1 = true ↔
      ∀ c ∈ " \n".toList, isSpace c = true) :=
  (seekEof_true_iff _ (Reachable.opened " \n".toList "ouf".toList)).1

/-- C7: in every state a checker can reach, with unread remainder `r`, the
unread remainder after `seekEof` is `r` without its longest leading run of
whitespace (so whitespace is taken whatever the answer, and no other char is
taken); the name and the read counter of the handle are as before. -/
theorem seekEof_consumes_blanks (s : InStream) (hs : Reachable s) :
    s.seekEof.2.stream.rest = s.stream.rest.dropWhile isSpace ∧
    s.seekEof.2.name = s.name ∧ s.seekEof.2.readCount = s.readCount :=
  ⟨ws_rest s.stream hs.inv, rfl, rfl⟩

theorem seekEof_consumes_blanks_witness :
    (InStream.mk0 { is_open := true, rest := " \n extra \n".toList, eofbit := false,
                    failbit := false } "ouf".toList).seekEof.2.stream.rest =
      "extra \n".toList :=
  (seekEof_consumes_blanks _ (Reachable.opened " \n extra \n".toList "ouf".toList)).1

/-! ### `readLine` -/

theorem sentry_noskip_good (st : IfStream) (hg : st.good = true) :
    st.sentry true = (true, st) := by
  unfold IfStream.sentry
  simp [hg]

theorem getline_newline (st : IfStream) (x l rest : List Char) (hg : st.good = true)
    (hr : st.rest = l ++ Char.ofNat 10 :: rest) (hl : ∀ c ∈ l, c ≠ Char.ofNat 10) :
    st.getline x = (l, { st with rest := rest }) := by
  have hl2 : ∀ c ∈ l, (fun c : Char => c != Char.ofNat 10) c = true := by
    intro c hc
    simpa using hl c hc
  have h1 : st.rest.takeWhile (fun c => c != Char.ofNat 10) = l := by
    rw [hr, takeWhile_append_all l _ hl2]
    simp
  have h2 : st.rest.dropWhile (fun c => c != Char.ofNat 10) = Char.ofNat 10 :: rest := by
    rw [hr, dropWhile_append_all l _ hl2]
    simp
  unfold IfStream.getline
  simp only [sentry_noskip_good st hg, if_true, h1, h2]

theorem getline_last (st : IfStream) (x : List Char) (hg : st.good = true)
    (hne : st.rest ≠ []) (hl : ∀ c ∈ st.rest, c ≠ Char.ofNat 10) :
    st.getline x = (st.rest, { st with rest := [], eofbit := true }) := by
  have hl2 : ∀ c ∈ st.rest, (fun c : Char => c != Char.ofNat 10) c = true := by
    intro c hc
    simpa using hl c hc
  have h1 : st.rest.takeWhile (fun c => c != Char.ofNat 10) = st.rest :=
    List.takeWhile_eq_self_iff.mpr hl2
  have h2 : st.rest.dropWhile (fun c => c != Char.ofNat 10) = [] :=
    List.dropWhile_eq_nil_iff.mpr hl2
  have h3 : st.rest.isEmpty = false := by
    cases hrr : st.rest with
    | nil => exact absurd hrr hne
    | cons a t => rfl
  have hgb := hg
  simp only [IfStream.good, Bool.and_eq_true, Bool.not_eq_true'] at hgb
  unfold IfStream.getline
  simp only [sentry_noskip_good st hg, if_true, h1, h2, h3]
  simp [IfStream.setstate, hgb.2]

theorem readLine_of_not_fail (s : InStream) (h : (s.stream.getline []).2.failbit = false) :
    s.readLine = (.ok (s.stream.getline []).1,
      { s with readCount := wrapInt (s.readCount + 1),
               stream := (s.stream.getline []).2 }) := by
  unfold InStream.readLine
  simp [IfStream.fail, h]

theorem split_at_newline (r : List Char) :
    (∀ c ∈ r, c ≠ Char.ofNat 10) ∨
    ∃ l rest, r = l ++ Char.ofNat 10 :: rest ∧ ∀ c ∈ l, c ≠ Char.ofNat 10 := by
  induction r with
  | nil => left; simp
  | cons a t ih =>
    by_cases ha : a = Char.ofNat 10
    · right
      exact ⟨[], t, by simp [ha], by simp⟩
    · rcases ih with h | ⟨l, rest, hr, hl⟩
      · left
        intro c hc
        rcases List.mem_cons.mp hc with rfl | hc
        · exact ha
        · exact h c hc
      · right
        refine ⟨a :: l, rest, by simp [hr], ?_⟩
        intro c hc
        rcases List.mem_cons.mp hc with rfl | hc
        · exact ha
        · exact hl c hc

/-- C8: in every state a checker can reach, with unread remainder `r`: when
`r` is `l`, a newline and `rest`, with no newline in `l`, `readLine` returns
`l` as it is and leaves `rest` unread; when `r` is not empty and holds no
newline, `readLine` returns all of `r` and leaves the stream at the end of the
file with `eofbit` set; and `readLine` ends the process, with exit code 2,
exactly when `r` is empty. -/
theorem readLine_returns_line (s : InStream) (hs : Reachable s) :
    (∀ l rest : List Char, s.stream.rest = l ++ Char.ofNat 10 :: rest →
      (∀ c ∈ l, c ≠ Char.ofNat 10) →
      s.readLine.1 = .ok l ∧ s.readLine.2.stream.rest = rest) ∧
    (s.stream.rest ≠ [] → (∀ c ∈ s.stream.rest, c ≠ Char.ofNat 10) →
      s.readLine.1 = .ok s.stream.rest ∧ s.readLine.2.stream.rest = [] ∧
      s.readLine.2.stream.eof = true) ∧
    ((∃ t, s.readLine.1 = .error t) ↔ s.stream.rest = []) ∧
    (∀ t, s.readLine.1 = .error t → t.exitCode = 2) := by
  have hgood : s.stream.rest ≠ [] → s.stream.good = true := good_of_Inv_rest hs.inv
  have hgb : s.stream.rest ≠ [] → s.stream.failbit = false := by
    intro hne
    have := hgood hne
    simp only [IfStream.good, Bool.and_eq_true, Bool.not_eq_true'] at this
    exact this.2
  have hA : ∀ l rest : List Char, s.stream.rest = l ++ Char.ofNat 10 :: rest →
      (∀ c ∈ l, c ≠ Char.ofNat 10) →
      s.readLine.1 = .ok l ∧ s.readLine.2.stream.rest = rest := by
    intro l rest hr hl
    have hne : s.stream.rest ≠ [] := by rw [hr]; simp
    have hg := getline_newline s.stream [] l rest (hgood hne) hr hl
    have hf : (s.stream.getline []).2.failbit = false := by rw [hg]; exact hgb hne
    rw [readLine_of_not_fail s hf, hg]
    exact ⟨rfl, rfl⟩
  have hB : s.stream.rest ≠ [] → (∀ c ∈ s.stream.rest, c ≠ Char.ofNat 10) →
      s.readLine.1 = .ok s.stream.rest ∧ s.readLine.2.stream.rest = [] ∧
      s.readLine.2.stream.eof = true := by
    intro hne hl
    have hg := getline_last s.stream [] (hgood hne) hne hl
    have hf : (s.stream.getline []).2.failbit = false := by rw [hg]; exact hgb hne
    rw [readLine_of_not_fail s hf, hg]
    exact ⟨rfl, rfl, rfl⟩
  refine ⟨hA, hB, ⟨?_, ?_⟩, ?_⟩
  · rintro ⟨t, ht⟩
    by_contra hne
    rcases split_at_newline s.stream.rest with hl | ⟨l, rest, hr, hl⟩
    · rw [(hB hne hl).1] at ht
      exact absurd ht (by simp)
    · rw [(hA l rest hr hl).1] at ht
      exact absurd ht (by simp)
  · intro h0
    obtain ⟨t, ht, _⟩ := readLine_of_fail s (getline_empty _ _ h0)
    exact ⟨t, ht⟩
  · intro t ht
    unfold InStream.readLine at ht
    simp only at ht
    split_ifs at ht <;> cases ht <;> rfl

theorem readLine_returns_line_witness :
    (InStream.mk0 { is_open := true, rest := " ab c \nxy".toList, eofbit := false,
                    failbit := false } "ouf".toList).readLine.1 = .ok " ab c ".toList ∧
    (InStream.mk0 { is_open := true, rest := " ab c \nxy".toList, eofbit := false,
                    failbit := false } "ouf".toList).readLine.2.stream.rest = "xy".toList :=
  (readLine_returns_line _ (Reachable.opened " ab c \nxy".toList "ouf".toList)).1
    " ab c ".toList "xy".toList rfl (by decide)

/-! ### `readString` -/

theorem extractString_token (st : IfStream) (x w t rest : List Char)
    (hw : ∀ c ∈ w, isSpace c = true) (hne : t ≠ []) (ht : ∀ c ∈ t, isSpace c = false)
    (hrest : StartsBlank rest) (hg : st.good = true) (hr : st.rest = w ++ (t ++ rest)) :
    st.extractString x = (t, { st with rest := rest, eofbit := rest.isEmpty }) := by
  cases t with
  | nil => exact absurd rfl hne
  | cons c u =>
    have hc : isSpace c = false := ht c (List.mem_cons_self c u)
    have hs : st.sentry false = (true, { st with rest := (c :: u) ++ rest }) :=
      sentry_skip st w c (u ++ rest) hg hw hc (by rw [hr]; rfl)
    have ht2 : ∀ a ∈ c :: u, (fun a : Char => !isSpace a) a = true := by
      intro a ha
      simp [ht a ha]
    have hrest2 : ∀ a, rest.head? = some a → (fun a : Char => !isSpace a) a = false := by
      intro a ha
      simp [hrest a ha]
    have h1 : ((c :: u) ++ rest).takeWhile (fun a => !isSpace a) = c :: u := by
      rw [takeWhile_append_all _ _ ht2, takeWhile_head_false rest hrest2]
      simp
    have h2 : ((c :: u) ++ rest).dropWhile (fun a => !isSpace a) = rest := by
      rw [dropWhile_append_all _ _ ht2, dropWhile_head_false rest hrest2]
    have hgb := hg
    simp only [IfStream.good, Bool.and_eq_true, Bool.not_eq_true'] at hgb
    unfold IfStream.extractString
    simp only [hs, if_true, h1, h2]
    simp [IfStream.setstate, hgb.1, hgb.2]

theorem extractString_ok_token (st : IfStream) (x : List Char)
    (hf : (st.extractString x).2.failbit = false) :
    (st.extractString x).1 ≠ [] ∧ ∀ c ∈ (st.extractString x).1, isSpace c = false := by
  revert hf
  unfold IfStream.extractString
  cases hs : st.sentry false with
  | mk ok s1 =>
    cases ok
    · intro hf
      have := sentry_fail st false (by simp [hs])
      simp [hs] at this hf
      simp [this] at hf
    · simp only [if_true, IfStream.setstate, Bool.or_eq_false_iff]
      intro hf
      constructor
      · intro h0
        rw [h0] at hf
        simp at hf
      · intro c hc
        simpa using List.mem_takeWhile_imp hc

/-- C9: in every state a checker can reach whose unread remainder is `w ++ t
++ rest`, with `w` all whitespace, `t` not empty and free of whitespace, and
`rest` empty or beginning with whitespace, `readString` returns exactly `t`
and leaves exactly `rest` unread. And whatever the state of a handle, a string
that `readString` returns is not empty and holds no whitespace. -/
theorem readString_returns_token (s : InStream) (w t rest : List Char) (hs : Reachable s)
    (hw : ∀ c ∈ w, isSpace c = true) (hne : t ≠ []) (ht : ∀ c ∈ t, isSpace c = false)
    (hrest : StartsBlank rest) (hr : s.stream.rest = w ++ (t ++ rest)) :
    s.readString.1 = .ok t ∧ s.readString.2.stream.rest = rest ∧
    (∀ (s0 : InStream) (v : List Char), s0.readString.1 = .ok v →
      v ≠ [] ∧ ∀ c ∈ v, isSpace c = false) := by
  have hg : s.stream.good = true := by
    apply good_of_Inv_rest hs.inv
    rw [hr]
    cases t with
    | nil => exact absurd rfl hne
    | cons c u => simp
  have he := extractString_token s.stream [] w t rest hw hne ht hrest hg hr
  have hgb := hg
  simp only [IfStream.good, Bool.and_eq_true, Bool.not_eq_true'] at hgb
  refine ⟨?_, ?_, ?_⟩
  · unfold InStream.readString
    simp [he, IfStream.fail, hgb.2]
  · unfold InStream.readString
    simp [he, IfStream.fail, hgb.2]
  · intro s0 v hv
    have hv2 : s0.readString = (.ok v, s0.readString.2) := by
      rw [← hv]
    obtain ⟨hf, rfl, _⟩ := readString_ok hv2
    exact extractString_ok_token _ _ hf

theorem readString_returns_token_witness :
    (InStream.mk0 { is_open := true, rest := "  tok  en".toList, eofbit := false,
                    failbit := false } "ouf".toList).readString.1 = .ok "tok".toList ∧
    (InStream.mk0 { is_open := true, rest := "  tok  en".toList, eofbit := false,
                    failbit := false } "ouf".toList).readString.2.stream.rest =
      "  en".toList :=
  have h := readString_returns_token _ "  ".toList "tok".toList "  en".toList
    (Reachable.opened "  tok  en".toList "ouf".toList)
    (by decide) (by decide) (by decide) (by intro c hc; cases hc; decide) rfl
  ⟨h.1, h.2.1⟩

/-! ### `registerTestlibCmd` -/

/-- C10: when `argc` is not 4, whatever the argument vector and the file
system, `registerTestlibCmd` ends the process with exit code 3 and leaves the
three global streams as they were: none has been opened. (A call of `open` on
a stream never opened before always leaves a trace: the stream is open, or has
`failbit`.) -/
theorem registerTestlibCmd_bad_argc (fs : List Char → Option (List Char)) (argc : Int)
    (argv : List (List Char)) (g : Globals) (h : argc ≠ 4) :
    (∃ t, (registerTestlibCmd fs argc argv g).1 = .error t ∧ t.exitCode = 3) ∧
    (registerTestlibCmd fs argc argv g).2 = g ∧
    (∀ path : List Char, IfStream.fresh.openFile fs path ≠ IfStream.fresh) := by
  refine ⟨?_, ?_, ?_⟩
  · unfold registerTestlibCmd
    rw [if_pos h]
    exact ⟨_, rfl, rfl⟩
  · unfold registerTestlibCmd
    rw [if_pos h]
  · intro path
    unfold IfStream.openFile
    cases fs path <;> simp [IfStream.fresh, IfStream.setstate]

theorem registerTestlibCmd_bad_argc_witness :
    (∃ t, (registerTestlibCmd (fun _ => some []) 3
            ["checker".toList, "in.txt".toList, "out.txt".toList] Globals.initial).1 =
          .error t ∧ t.exitCode = 3) ∧
    (registerTestlibCmd (fun _ => some []) 3
        ["checker".toList, "in.txt".toList, "out.txt".toList] Globals.initial).2 =
      Globals.initial :=
  have h := registerTestlibCmd_bad_argc (fun _ => some []) 3
    ["checker".toList, "in.txt".toList, "out.txt".toList] Globals.initial (by decide)
  ⟨h.1, h.2.1⟩

/-! ### `quitf` -/

theorem quitfLabel_code (k : Verdict) : quitfLabel k.code = k.specLabel := by
  cases k <;> rfl

/-- C1: for each of the six verdict kinds and every message, `quitf` ends the
process with the exit code of the table (0, 1, 2, 3, 4, 7), and two calls with
the same kind and different messages end with the same exit code. -/
theorem quitf_exitCode_table (k : Verdict) (m : List Char) :
    (quitf k.code m).exitCode = k.specExitCode ∧
    ∀ m2 : List Char, (quitf k.code m2).exitCode = (quitf k.code m).exitCode := by
  refine ⟨?_, fun _ => rfl⟩
  cases k <;> rfl

/-- C2: for each of the six verdict kinds and every message, what `quitf`
writes to standard output starts with the label of the table for that kind;
two different kinds have different labels and end the process with different
exit codes. -/
theorem quitf_label_prefix_distinct (k : Verdict) (m : List Char) :
    k.specLabel <+: (quitf k.code m).cout ∧
    ∀ (k2 : Verdict) (m2 : List Char), k ≠ k2 →
      quitfLabel k.code ≠ quitfLabel k2.code ∧
      (quitf k.code m).exitCode ≠ (quitf k2.code m2).exitCode := by
  constructor
  · refine ⟨cString (vsnprintf 1024 m) ++ endl, ?_⟩
    simp only [quitf, quitfLabel_code]
  · intro k2 m2 hne
    cases k <;> cases k2 <;> first
      | exact absurd rfl hne
      | exact ⟨by decide, by simp only [quitf]; decide⟩

theorem quitf_label_prefix_distinct_witness :
    Verdict.specLabel .Accepted <+:
        (quitf (Verdict.code .Accepted) "answer is correct".toList).cout ∧
    (quitfLabel (Verdict.code .Accepted) ≠ quitfLabel (Verdict.code .Dirt) ∧
      (quitf (Verdict.code .Accepted) "answer is correct".toList).exitCode ≠
        (quitf (Verdict.code .Dirt) "extra".toList).exitCode) :=
  ⟨(quitf_label_prefix_distinct .Accepted "answer is correct".toList).1,
   (quitf_label_prefix_distinct .Accepted "answer is correct".toList).2 .Dirt "extra".toList
     (by decide)⟩

theorem cString_of_no_nul (m : List Char) (h : ∀ c ∈ m, c ≠ Char.ofNat 0) :
    cString m = m := by
  unfold cString
  rw [List.takeWhile_eq_self_iff]
  intro c hc
  simpa using h c hc

theorem count_newline_cString_take (m : List Char) (n : Nat)
    (h : ∀ c ∈ m, c ≠ Char.ofNat 10) :
    (cString (m.take n)).count (Char.ofNat 10) = 0 := by
  rw [List.count_eq_zero]
  intro hc
  have h1 : Char.ofNat 10 ∈ m.take n := (List.takeWhile_sublist _).subset hc
  exact h _ (List.mem_of_mem_take h1) rfl

/-- C3, the claim as stated fails: of a message of 1024 chars `quitf` writes
the label and the first 1023 chars only. -/
theorem quitf_cuts_long_message :
    (quitf (Verdict.code .Accepted) (List.replicate 1024 'a')).cout =
        Verdict.specLabel .Accepted ++ (List.replicate 1023 'a' ++ endl) ∧
    (quitf (Verdict.code .Accepted) (List.replicate 1024 'a')).cout ≠
        Verdict.specLabel .Accepted ++ (List.replicate 1024 'a' ++ endl) := by
  have h1 : (quitf (Verdict.code .Accepted) (List.replicate 1024 'a')).cout =
      Verdict.specLabel .Accepted ++ (List.replicate 1023 'a' ++ endl) := by
    simp only [quitf, quitfLabel_code, vsnprintf, List.take_replicate]
    rw [cString_of_no_nul]
    · rfl
    · intro c hc
      rw [List.mem_replicate] at hc
      rw [hc.2]
      decide
  refine ⟨h1, ?_⟩
  rw [h1]
  intro h
  have := congrArg List.length h
  simp only [List.length_append, List.length_replicate] at this
  omega

/-- C3, amended: for each of the six verdict kinds and every message `m`,
`quitf` writes to standard output the label, then the chars of the first 1023
chars of `m` that precede a NUL, then one newline, and writes nothing to
standard error. For a message of at most 1023 chars without NUL that is the
label followed by the whole of `m` and a newline; when such a message holds no
newline the output is one line. -/
theorem quitf_cout_bounded (k : Verdict) (m : List Char) :
    (quitf k.code m).cout = k.specLabel ++ (cString (m.take 1023) ++ endl) ∧
    (quitf k.code m).cerr = [] ∧
    (m.length ≤ 1023 → (∀ c ∈ m, c ≠ Char.ofNat 0) →
      (quitf k.code m).cout = k.specLabel ++ (m ++ endl) ∧
      ((∀ c ∈ m, c ≠ Char.ofNat 10) → (quitf k.code m).cout.count (Char.ofNat 10) = 1)) := by
  have h0 : (quitf k.code m).cout = k.specLabel ++ (cString (m.take 1023) ++ endl) := by
    simp only [quitf, quitfLabel_code, vsnprintf]
  refine ⟨h0, rfl, ?_⟩
  intro hlen hnul
  constructor
  · rw [h0, List.take_of_length_le hlen, cString_of_no_nul m hnul]
  · intro hnl
    rw [h0, List.count_append, List.count_append, count_newline_cString_take m 1023 hnl]
    cases k <;> decide

theorem quitf_cout_bounded_witness :
    (quitf (Verdict.code .Accepted) "answer is correct".toList).cout =
        "OK answer is correct".toList ++ endl ∧
    (quitf (Verdict.code .Accepted) "answer is correct".toList).cout.count (Char.ofNat 10) = 1 :=
  have h := (quitf_cout_bounded .Accepted "answer is correct".toList).2.2
    (by decide) (by decide)
  ⟨h.1, h.2 (by decide)⟩

/-! ### Reading an integer: the general case -/

/-- The conversion on a spelling followed by a char that is not a digit (or by
nothing): the whole spelling is extracted, and the value is stored when it
fits a `long`. -/
theorem numGetLong_spelling_any (sp rest : List Char) (N : Int) (hsp : IsSpelling sp N)
    (hrest : ∀ c, rest.head? = some c → isDigit c = false) :
    numGetLong (sp ++ rest) =
      if N < LONG_MIN then (LONG_MIN, true, rest)
      else if N > LONG_MAX then (LONG_MAX, true, rest)
      else (N, false, rest) := by
  obtain ⟨ds, hne, hd, hcase⟩ := hsp
  obtain ⟨htk, hdr⟩ := scan_digits ds rest hd hrest
  have hemp : ds.isEmpty = false := by
    cases ds with
    | nil => exact absurd rfl hne
    | cons a t => rfl
  have hval : (digitsValue ds : Int) = (decimalValue ds : Int) := by
    rw [digitsValue_eq_decimalValue]
  rcases hcase with ⟨rfl, hN⟩ | ⟨rfl, hN⟩ | ⟨rfl, hN⟩
  · cases sp with
    | nil => exact absurd rfl hne
    | cons d t =>
      have hdd : isDigit d = true := hd d (List.mem_cons_self d t)
      have h1 : d ≠ Char.ofNat 45 := isDigit_ne_minus d hdd
      have h2 : d ≠ Char.ofNat 43 := isDigit_ne_plus d hdd
      unfold numGetLong
      simp only [List.cons_append, List.head?_cons, Option.some.injEq, h1, h2, decide_False,
        Bool.or_self, Bool.false_eq_true, if_false]
      rw [← List.cons_append, htk, hdr, hemp]
      simp only [Bool.false_eq_true, if_false, hval, ← hN]
  · unfold numGetLong
    simp only [List.cons_append, List.head?_cons, Option.some.injEq, List.tail_cons]
    have h3 : (Char.ofNat 43 = Char.ofNat 45) = False := by decide
    simp only [h3, decide_False, decide_True, Bool.false_or, if_true, htk, hdr, hemp,
      Bool.false_eq_true, if_false, hval, ← hN]
  · unfold numGetLong
    simp only [List.cons_append, List.head?_cons, List.tail_cons, decide_True,
      Bool.true_or, if_true, htk, hdr, hemp, Bool.false_eq_true, if_false, hval, ← hN]

/-- The extraction of an `int` on a good stream whose remainder is whitespace,
a spelling of `N`, and then no digit: `N` is stored and no bit but `eofbit` at
the end of the file is set when `N` is in the range of `int`; otherwise
`failbit` is set. -/
theorem extractInt_spelling_any (st : IfStream) (x N : Int) (sp w rest : List Char)
    (hsp : IsSpelling sp N) (hw : ∀ c ∈ w, isSpace c = true)
    (hrest : ∀ c, rest.head? = some c → isDigit c = false)
    (hg : st.good = true) (hr : st.rest = w ++ (sp ++ rest)) :
    (INT_MIN ≤ N → N ≤ INT_MAX →
      st.extractInt x = (N, { st with rest := rest, eofbit := rest.isEmpty })) ∧
    ((N < INT_MIN ∨ INT_MAX < N) → (st.extractInt x).2.failbit = true) := by
  obtain ⟨c, t, hct, hc⟩ := hsp.head
  have hs : st.sentry false = (true, { st with rest := sp ++ rest }) := by
    have := sentry_skip st w c (t ++ rest) hg hw hc (by rw [hr, hct]; rfl)
    rw [this, hct]; rfl
  have hn := numGetLong_spelling_any sp rest N hsp hrest
  have hgb := hg
  simp only [IfStream.good, Bool.and_eq_true, Bool.not_eq_true'] at hgb
  have hmin : LONG_MIN ≤ INT_MIN := by decide
  have hmax : INT_MAX ≤ LONG_MAX := by decide
  have hmm : LONG_MIN ≤ LONG_MAX := by decide
  have hii : INT_MIN ≤ INT_MAX := by decide
  constructor
  · intro hlo hhi
    rw [if_neg (not_lt.mpr (le_trans hmin hlo)),
      if_neg (not_lt.mpr (le_trans hhi hmax))] at hn
    unfold IfStream.extractInt
    simp only [hs, if_true, hn]
    rw [if_neg (not_lt.mpr hlo), if_neg (not_lt.mpr hhi)]
    simp [IfStream.setstate, hgb.1, hgb.2]
  · intro hout
    unfold IfStream.extractInt
    simp only [hs, if_true, hn]
    by_cases h1 : N < LONG_MIN
    · have h2 : LONG_MIN < INT_MIN := by decide
      simp [h1, h2, IfStream.setstate]
    · by_cases h3 : N > LONG_MAX
      · have h4 : ¬ LONG_MAX < INT_MIN := by decide
        have h5 : LONG_MAX > INT_MAX := by decide
        simp [h1, h3, h4, h5, IfStream.setstate]
      · simp only [h1, h3, if_false]
        rcases hout with h | h
        · simp [h, IfStream.setstate]
        · have h6 : ¬ N < INT_MIN := not_lt.mpr (le_trans hii (le_of_lt h))
          have h7 : N > INT_MAX := h
          simp [h6, h7, IfStream.setstate]

theorem readInt_of_not_fail (s : InStream) (h : (s.stream.extractInt 0).2.failbit = false) :
    s.readInt = (.ok (s.stream.extractInt 0).1,
      { s with readCount := wrapInt (s.readCount + 1),
               stream := (s.stream.extractInt 0).2 }) := by
  unfold InStream.readInt
  simp [IfStream.fail, h]

/-- A call of `readInt` on a good stream whose remainder is whitespace, a
spelling of a number `N` of the range of `int`, and then no digit. -/
theorem readInt_leading (s : InStream) (N : Int) (sp w rest : List Char)
    (hlo : INT_MIN ≤ N) (hhi : N ≤ INT_MAX) (hsp : IsSpelling sp N)
    (hw : ∀ c ∈ w, isSpace c = true)
    (hrest : ∀ c, rest.head? = some c → isDigit c = false)
    (hg : s.stream.good = true) (hr : s.stream.rest = w ++ (sp ++ rest)) :
    s.readInt = (.ok N, { s with readCount := wrapInt (s.readCount + 1),
                                 stream := { s.stream with rest := rest,
                                                           eofbit := rest.isEmpty } }) := by
  have he := (extractInt_spelling_any s.stream 0 N sp w rest hsp hw hrest hg hr).1 hlo hhi
  have hgb := hg
  simp only [IfStream.good, Bool.and_eq_true, Bool.not_eq_true'] at hgb
  have hf : (s.stream.extractInt 0).2.failbit = false := by rw [he]; exact hgb.2
  rw [readInt_of_not_fail s hf, he]

theorem Reachable.good_of_rest {s : InStream} (hs : Reachable s) (w sp rest : List Char)
    {N : Int} (hsp : IsSpelling sp N) (hr : s.stream.rest = w ++ (sp ++ rest)) :
    s.stream.good = true := by
  obtain ⟨c, t, hct, _⟩ := hsp.head
  apply good_of_Inv_rest hs.inv
  rw [hr, hct]
  simp

/-! ### `registerTestlibCmd` with three paths -/

theorem openFile_closed (st : IfStream) (fs : List Char → Option (List Char))
    (path : List Char) (h : st.is_open = false) :
    (st.openFile fs path).is_open = (fs path).isSome := by
  unfold IfStream.openFile
  cases hp : fs path <;> simp [h, IfStream.setstate]

/-- C11: with three path arguments (`argc` is 4) and none of the three global
streams opened before, `registerTestlibCmd` returns exactly when the three
files can be opened; otherwise it ends the process with exit code 3, and the
line it writes to standard error names the first file, in the order input,
output, answer, that could not be opened, followed by the path of that
file. -/
theorem registerTestlibCmd_three_paths (fs : List Char → Option (List Char))
    (prog pin pout pans : List Char) (g : Globals)
    (hi : g.inf.is_open = false) (ho : g.ouf.is_open = false) (ha : g.ans.is_open = false) :
    ((registerTestlibCmd fs 4 [prog, pin, pout, pans] g).1 = .ok () ↔
      (fs pin).isSome = true ∧ (fs pout).isSome = true ∧ (fs pans).isSome = true) ∧
    ((fs pin).isSome = false →
      (registerTestlibCmd fs 4 [prog, pin, pout, pans] g).1 =
        .error { exitCode := 3, cout := [],
                 cerr := "Failed to open input file: ".toList ++ (pin ++ endl) }) ∧
    ((fs pin).isSome = true → (fs pout).isSome = false →
      (registerTestlibCmd fs 4 [prog, pin, pout, pans] g).1 =
        .error { exitCode := 3, cout := [],
                 cerr := "Failed to open output file: ".toList ++ (pout ++ endl) }) ∧
    ((fs pin).isSome = true → (fs pout).isSome = true → (fs pans).isSome = false →
      (registerTestlibCmd fs 4 [prog, pin, pout, pans] g).1 =
        .error { exitCode := 3, cout := [],
                 cerr := "Failed to open answer file: ".toList ++ (pans ++ endl) }) := by
  have h1 := openFile_closed g.inf fs pin hi
  have h2 := openFile_closed g.ouf fs pout ho
  have h3 := openFile_closed g.ans fs pans ha
  have hreg : (registerTestlibCmd fs 4 [prog, pin, pout, pans] g).1 =
      if (fs pin).isSome = false then
        .error { exitCode := 3, cout := [],
                 cerr := "Failed to open input file: ".toList ++ (pin ++ endl) }
      else if (fs pout).isSome = false then
        .error { exitCode := 3, cout := [],
                 cerr := "Failed to open output file: ".toList ++ (pout ++ endl) }
      else if (fs pans).isSome = false then
        .error { exitCode := 3, cout := [],
                 cerr := "Failed to open answer file: ".toList ++ (pans ++ endl) }
      else .ok () := by
    unfold registerTestlibCmd
    simp only [ne_eq, not_true_eq_false, if_false, List.getD_cons_succ, List.getD_cons_zero,
      h1, h2, h3]
    cases fs pin <;> cases fs pout <;> cases fs pans <;> simp [_fail]
  rw [hreg]
  refine ⟨?_, ?_, ?_, ?_⟩
  · cases fs pin <;> cases fs pout <;> cases fs pans <;> simp
  · intro h; simp [h]
  · intro ha hb; simp [ha, hb]
  · intro ha hb hc; simp [ha, hb, hc]

theorem registerTestlibCmd_three_paths_witness :
    (registerTestlibCmd
        (fun p => if p = "in.txt".toList ∨ p = "ans.txt".toList then some "8".toList else none)
        4 ["checker".toList, "in.txt".toList, "out.txt".toList, "ans.txt".toList]
        Globals.initial).1 =
      .error { exitCode := 3, cout := [],
               cerr := "Failed to open output file: out.txt".toList ++ endl } :=
  (registerTestlibCmd_three_paths
    (fun p => if p = "in.txt".toList ∨ p = "ans.txt".toList then some "8".toList else none)
    "checker".toList "in.txt".toList "out.txt".toList "ans.txt".toList Globals.initial
    rfl rfl rfl).2.2.1 (by decide) (by decide)

/-! ### What a failed read writes -/

/-- C12, the claim as stated fails: `readInt` on an empty file ends the
process with exit code 2 having written nothing to standard output and its
diagnostic to standard error. -/
theorem readInt_failure_writes_cerr :
    (InStream.mk0 { is_open := true, rest := [], eofbit := false, failbit := false }
        "ouf".toList).readInt.1 =
      .error { exitCode := 2, cout := [],
               cerr := "Unexpected EOF when reading integer from ouf".toList ++ endl } ∧
    ¬ ("Presentation Error ".toList <+: ([] : List Char)) := by
  refine ⟨rfl, ?_⟩
  intro h
  have := List.IsPrefix.length_le h
  simp at this

/-- C12, amended: whenever `readInt`, `readString`, `readDouble` or `readLine`
ends the process, the exit code is 2, nothing is written to standard output,
and standard error receives one diagnostic, `Unexpected EOF when reading
<kind> from <name>` or `Failed to read <kind> from <name>`, followed by a
newline. -/
theorem read_failure_output (s : InStream) (t : Terminated) :
    (s.readInt.1 = .error t → t.exitCode = 2 ∧ t.cout = [] ∧
      (t.cerr = "Unexpected EOF when reading integer from ".toList ++ (s.name ++ endl) ∨
       t.cerr = "Failed to read integer from ".toList ++ (s.name ++ endl))) ∧
    (s.readString.1 = .error t → t.exitCode = 2 ∧ t.cout = [] ∧
      (t.cerr = "Unexpected EOF when reading string from ".toList ++ (s.name ++ endl) ∨
       t.cerr = "Failed to read string from ".toList ++ (s.name ++ endl))) ∧
    (∀ (D : Type) [Inhabited D] (numGet : List Char → Nat × D × Bool),
      (s.readDouble numGet).1 = .error t → t.exitCode = 2 ∧ t.cout = [] ∧
      (t.cerr = "Unexpected EOF when reading double from ".toList ++ (s.name ++ endl) ∨
       t.cerr = "Failed to read double from ".toList ++ (s.name ++ endl))) ∧
    (s.readLine.1 = .error t → t.exitCode = 2 ∧ t.cout = [] ∧
      (t.cerr = "Unexpected EOF when reading line from ".toList ++ (s.name ++ endl) ∨
       t.cerr = "Failed to read line from ".toList ++ (s.name ++ endl))) := by
  refine ⟨?_, ?_, ?_, ?_⟩
  · intro h
    unfold InStream.readInt at h
    simp only at h
    split_ifs at h <;> cases h
    · exact ⟨rfl, rfl, Or.inl rfl⟩
    · exact ⟨rfl, rfl, Or.inr rfl⟩
  · intro h
    unfold InStream.readString at h
    simp only at h
    split_ifs at h <;> cases h
    · exact ⟨rfl, rfl, Or.inl rfl⟩
    · exact ⟨rfl, rfl, Or.inr rfl⟩
  · intro D _ numGet h
    unfold InStream.readDouble at h
    simp only at h
    split_ifs at h <;> cases h
    · exact ⟨rfl, rfl, Or.inl rfl⟩
    · exact ⟨rfl, rfl, Or.inr rfl⟩
  · intro h
    unfold InStream.readLine at h
    simp only at h
    split_ifs at h <;> cases h
    · exact ⟨rfl, rfl, Or.inl rfl⟩
    · exact ⟨rfl, rfl, Or.inr rfl⟩

theorem read_failure_output_witness :
    (InStream.mk0 { is_open := true, rest := "abc".toList, eofbit := false, failbit := false }
        "ouf".toList).readInt.1 =
      .error { exitCode := 2, cout := [],
               cerr := "Failed to read integer from ouf".toList ++ endl } ∧
    (2 : Int) = 2 ∧ ([] : List Char) = [] ∧
      ("Failed to read integer from ouf".toList ++ endl =
          "Unexpected EOF when reading integer from ".toList ++ ("ouf".toList ++ endl) ∨
       "Failed to read integer from ouf".toList ++ endl =
          "Failed to read integer from ".toList ++ ("ouf".toList ++ endl)) :=
  ⟨rfl, (read_failure_output
    (InStream.mk0 { is_open := true, rest := "abc".toList, eofbit := false, failbit := false }
      "ouf".toList)
    { exitCode := 2, cout := [],
      cerr := "Failed to read integer from ouf".toList ++ endl }).1 rfl⟩

/-! ### `readInt` and the token -/

theorem numGetLong_no_number (r : List Char) (h : beginsInteger r = false) :
    (numGetLong r).1 = 0 ∧ (numGetLong r).2.1 = true := by
  unfold beginsInteger at h
  unfold numGetLong
  simp only at h ⊢
  generalize (if (decide (r.head? = some (Char.ofNat 45)) ||
      decide (r.head? = some (Char.ofNat 43))) = true then r.tail else r) = r1 at h ⊢
  have ht : List.takeWhile isDigit r1 = [] := by
    apply takeWhile_head_false
    intro c hc
    rw [hc] at h
    exact h
  simp [ht]

theorem extractInt_no_number (st : IfStream) (x : Int)
    (h : beginsInteger (st.rest.dropWhile isSpace) = false) :
    (st.extractInt x).2.failbit = true := by
  unfold IfStream.extractInt
  cases hs : st.sentry false with
  | mk ok s1 =>
    cases ok
    · have := sentry_fail st false (by simp [hs])
      simpa [hs] using this
    · have hr : s1.rest = st.rest.dropWhile isSpace := by
        unfold IfStream.sentry at hs
        by_cases hg : st.good = true
        · by_cases he : (List.dropWhile isSpace st.rest).isEmpty = true
          · simp [hg, he] at hs
          · simp only [hg, if_true, he, Bool.false_eq_true, if_false, Prod.mk.injEq,
              true_and] at hs
            rw [← hs]
        · simp [hg] at hs
      rw [← hr] at h
      obtain ⟨h1, h2⟩ := numGetLong_no_number s1.rest h
      simp only [if_true]
      rcases hn : numGetLong s1.rest with ⟨l, err, r⟩
      rw [hn] at h1 h2
      simp only at h1 h2
      subst h1 h2
      have h3 : ¬ (0 : Int) < INT_MIN := by decide
      have h4 : ¬ (0 : Int) > INT_MAX := by decide
      simp [h3, h4, IfStream.setstate]

/-- C13, the claim as stated fails: on the token `12abc`, which is not a
well-formed integer, `readInt` returns 12 and leaves `abc` unread. -/
theorem readInt_takes_prefix_of_token :
    (InStream.mk0 { is_open := true, rest := "12abc".toList, eofbit := false,
                    failbit := false } "ouf".toList).readInt.1 = .ok 12 ∧
    (InStream.mk0 { is_open := true, rest := "12abc".toList, eofbit := false,
                    failbit := false } "ouf".toList).readInt.2.stream.rest = "abc".toList :=
  ⟨rfl, rfl⟩

theorem extractInt_out_of_range (st : IfStream) (x N : Int) (sp w rest : List Char)
    (hsp : IsSpelling sp N) (hout : N < INT_MIN ∨ INT_MAX < N)
    (hw : ∀ c ∈ w, isSpace c = true)
    (hrest : ∀ c, rest.head? = some c → isDigit c = false)
    (hr : st.rest = w ++ (sp ++ rest)) :
    (st.extractInt x).2.failbit = true := by
  cases hg : st.good
  · have h1 : (st.sentry false).1 = false := by
      unfold IfStream.sentry
      simp [hg]
    have h2 := sentry_fail st false h1
    unfold IfStream.extractInt
    cases hs : st.sentry false with
    | mk ok s1 =>
      rw [hs] at h1 h2
      simp only at h1 h2
      subst h1
      simpa using h2
  · exact (extractInt_spelling_any st x N sp w rest hsp hw hrest hg hr).2 hout

theorem head_dropWhile_false (p : Char → Bool) (l : List Char) :
    ∀ c, (l.dropWhile p).head? = some c → p c = false := by
  induction l with
  | nil => intro c hc; simp at hc
  | cons a t ih =>
    intro c hc
    by_cases ha : p a = true
    · rw [List.dropWhile_cons_of_pos ha] at hc
      exact ih c hc
    · rw [List.dropWhile_cons_of_neg ha] at hc
      simp only [List.head?_cons, Option.some.injEq] at hc
      subst hc
      simpa using ha

/-- A run of chars that begins with a digit is a run of digits, not empty,
followed by a run that is empty or begins with another char. -/
theorem digits_split (t : List Char) (d : Char) (hd : t.head? = some d)
    (hdig : isDigit d = true) :
    ∃ ds rest : List Char, t = ds ++ rest ∧ ds ≠ [] ∧ (∀ c ∈ ds, isDigit c = true) ∧
      (∀ c, rest.head? = some c → isDigit c = false) := by
  refine ⟨t.takeWhile isDigit, t.dropWhile isDigit, (List.takeWhile_append_dropWhile _ _).symm,
    ?_, fun c hc => List.mem_takeWhile_imp hc, head_dropWhile_false isDigit t⟩
  cases t with
  | nil => simp at hd
  | cons a u =>
    simp only [List.head?_cons, Option.some.injEq] at hd
    subst hd
    simp [List.takeWhile_cons, hdig]

/-- Chars that begin with a decimal integer are a spelling of some number
followed by a run that is empty or begins with a char that is not a digit. -/
theorem beginsInteger_split (r : List Char) (h : beginsInteger r = true) :
    ∃ (sp : List Char) (N : Int) (rest : List Char), r = sp ++ rest ∧ IsSpelling sp N ∧
      (∀ c, rest.head? = some c → isDigit c = false) := by
  unfold beginsInteger at h
  cases r with
  | nil => simp at h
  | cons a t =>
    by_cases hm : a = Char.ofNat 45
    · subst hm
      simp only [List.head?_cons, decide_True, Bool.true_or, if_true, List.tail_cons] at h
      cases ht : t.head? with
      | none => simp [ht] at h
      | some d =>
        simp only [ht] at h
        obtain ⟨ds, rest, hsplit, hne, hall, hrest⟩ := digits_split t d ht h
        exact ⟨Char.ofNat 45 :: ds, -(decimalValue ds : Int), rest, by simp [hsplit],
          ⟨ds, hne, hall, Or.inr (Or.inr ⟨rfl, rfl⟩)⟩, hrest⟩
    · by_cases hp : a = Char.ofNat 43
      · subst hp
        simp only [List.head?_cons, decide_True, Bool.or_true, if_true, List.tail_cons] at h
        cases ht : t.head? with
        | none => simp [ht] at h
        | some d =>
          simp only [ht] at h
          obtain ⟨ds, rest, hsplit, hne, hall, hrest⟩ := digits_split t d ht h
          exact ⟨Char.ofNat 43 :: ds, (decimalValue ds : Int), rest, by simp [hsplit],
            ⟨ds, hne, hall, Or.inr (Or.inl ⟨rfl, rfl⟩)⟩, hrest⟩
      · simp only [List.head?_cons, Option.some.injEq, hm, hp, decide_False, Bool.or_self,
          Bool.false_eq_true, if_false] at h
        obtain ⟨ds, rest, hsplit, hne, hall, hrest⟩ := digits_split (a :: t) a rfl h
        exact ⟨ds, (decimalValue ds : Int), rest, hsplit,
          ⟨ds, hne, hall, Or.inl ⟨rfl, rfl⟩⟩, hrest⟩

/-- C13, amended: `readInt` ends the process with exit code 2, returning no
value, whenever the chars that follow the leading whitespace do not begin
with a decimal integer (an optional sign and at least one digit), as `abc`
and `-` do not, and whenever they begin with one that, taken up to the first
char that is not a digit, spells a number outside the 32-bit signed range, as
`99999999999abc` does. In the one case left, when they begin with the spelling
of a number of the 32-bit signed range, as `12abc` does, `readInt` takes the
spelling up to the first char that is not a digit, returns the number and
leaves the rest of the token unread. -/
theorem readInt_fails_without_integer (s : InStream) :
    (beginsInteger (s.stream.rest.dropWhile isSpace) = false →
      ∃ t, s.readInt.1 = .error t ∧ t.exitCode = 2) ∧
    (∀ (N : Int) (sp w rest : List Char), IsSpelling sp N → (∀ c ∈ w, isSpace c = true) →
      (∀ c, rest.head? = some c → isDigit c = false) →
      s.stream.rest = w ++ (sp ++ rest) →
      ((N < INT_MIN ∨ INT_MAX < N) → ∃ t, s.readInt.1 = .error t ∧ t.exitCode = 2) ∧
      (Reachable s → INT_MIN ≤ N → N ≤ INT_MAX →
        s.readInt.1 = .ok N ∧ s.readInt.2.stream.rest = rest)) ∧
    (∀ r : List Char, beginsInteger r = true →
      ∃ (sp : List Char) (N : Int) (rest : List Char), r = sp ++ rest ∧ IsSpelling sp N ∧
        (∀ c, rest.head? = some c → isDigit c = false)) := by
  refine ⟨?_, ?_, beginsInteger_split⟩
  · intro h
    exact readInt_of_fail s (extractInt_no_number _ _ h)
  · intro N sp w rest hsp hw hrest hr
    constructor
    · intro hout
      exact readInt_of_fail s (extractInt_out_of_range _ _ N sp w rest hsp hout hw hrest hr)
    · intro hs hlo hhi
      rw [readInt_leading s N sp w rest hlo hhi hsp hw hrest
        (hs.good_of_rest w sp rest hsp hr) hr]
      exact ⟨rfl, rfl⟩

theorem readInt_fails_without_integer_witness :
    (∃ t, (InStream.mk0 { is_open := true, rest := " -".toList, eofbit := false,
                          failbit := false } "ouf".toList).readInt.1 = .error t ∧
          t.exitCode = 2) ∧
    (∃ t, (InStream.mk0 { is_open := true, rest := " 99999999999abc".toList, eofbit := false,
                          failbit := false } "ouf".toList).readInt.1 = .error t ∧
          t.exitCode = 2) ∧
    ((InStream.mk0 { is_open := true, rest := " 12abc".toList, eofbit := false,
                     failbit := false } "ouf".toList).readInt.1 = .ok 12 ∧
     (InStream.mk0 { is_open := true, rest := " 12abc".toList, eofbit := false,
                     failbit := false } "ouf".toList).readInt.2.stream.rest = "abc".toList) :=
  ⟨(readInt_fails_without_integer _).1 (by decide),
   ((readInt_fails_without_integer
      (InStream.mk0 { is_open := true, rest := " 99999999999abc".toList, eofbit := false,
                      failbit := false } "ouf".toList)).2.1
      99999999999 "99999999999".toList " ".toList "abc".toList
      ⟨"99999999999".toList, by decide, by decide, Or.inl ⟨rfl, by decide⟩⟩
      (by decide) (by intro c hc; cases hc; decide) rfl).1 (Or.inr (by decide)),
   ((readInt_fails_without_integer
      (InStream.mk0 { is_open := true, rest := " 12abc".toList, eofbit := false,
                      failbit := false } "ouf".toList)).2.1
      12 "12".toList " ".toList "abc".toList
      ⟨"12".toList, by decide, by decide, Or.inl ⟨rfl, by decide⟩⟩
      (by decide) (by intro c hc; cases hc; decide) rfl).2
      (Reachable.opened " 12abc".toList "ouf".toList) (by decide) (by decide)⟩

/-- C14, the code at the failing input: on a file that holds only `-`, where a
char that is not whitespace is present, `readInt` ends the process with the
message of the end of the file, not with `Failed to read`; with a newline
after the `-` the message is `Failed to read`. -/
theorem readInt_lone_minus_message :
    (InStream.mk0 { is_open := true, rest := "-".toList, eofbit := false,
                    failbit := false } "ouf".toList).readInt.1 =
      .error { exitCode := 2, cout := [],
               cerr := "Unexpected EOF when reading integer from ouf".toList ++ endl } ∧
    (InStream.mk0 { is_open := true, rest := "-\n".toList, eofbit := false,
                    failbit := false } "ouf".toList).readInt.1 =
      .error { exitCode := 2, cout := [],
               cerr := "Failed to read integer from ouf".toList ++ endl } :=
  ⟨rfl, rfl⟩

/-! ### The read counter -/

/-- C15, the claim as stated fails: a call of `seekEof` on a handle just made
leaves its read counter at 0. -/
theorem seekEof_keeps_readCount :
    (InStream.mk0 { is_open := true, rest := "8 extra".toList, eofbit := false,
                    failbit := false } "ouf".toList).seekEof.2.readCount = 0 ∧
    (InStream.mk0 { is_open := true, rest := "8 extra".toList, eofbit := false,
                    failbit := false } "ouf".toList).seekEof.2.readCount ≠
      (InStream.mk0 { is_open := true, rest := "8 extra".toList, eofbit := false,
                      failbit := false } "ouf".toList).readCount + 1 :=
  ⟨rfl, by decide⟩

theorem Handles.get_set_ne (h : Handles) (w w2 : Which) (s : InStream) (hne : w2 ≠ w) :
    (h.set w s).get w2 = h.get w2 := by
  cases w <;> cases w2 <;> first
    | exact absurd rfl hne
    | rfl

/-- C15, amended: each call of `readInt`, `readString`, `readDouble` or
`readLine` on a handle whose read counter is below 2147483647 (the counter is
a 32-bit `int`) leaves the counter of that handle one higher, whether the call
returns or ends the process; a call of `seekEof` leaves the counter as it is.
The counter of a handle just made is 0, and a call of a method on one of the
three handles leaves the other two handles, their counters with them, as they
are. -/
theorem readCount_steps (s : InStream) (hlo : INT_MIN ≤ s.readCount)
    (hhi : s.readCount < INT_MAX) :
    s.readInt.2.readCount = s.readCount + 1 ∧
    s.readString.2.readCount = s.readCount + 1 ∧
    (∀ (D : Type) [Inhabited D] (numGet : List Char → Nat × D × Bool),
      (s.readDouble numGet).2.readCount = s.readCount + 1) ∧
    s.readLine.2.readCount = s.readCount + 1 ∧
    s.seekEof.2.readCount = s.readCount ∧
    (∀ (st : IfStream) (name : List Char), (InStream.mk0 st name).readCount = 0) ∧
    (∀ (α : Type) (m : InStream → α × InStream) (h : Handles) (w w2 : Which), w2 ≠ w →
      (h.call m w).2.get w2 = h.get w2 ∧
      ((h.call m w).2.get w2).readCount = (h.get w2).readCount) := by
  have hw : wrapInt (s.readCount + 1) = s.readCount + 1 := by
    apply wrapInt_of_range
    · unfold INT_MIN at hlo ⊢
      omega
    · unfold INT_MAX at hhi ⊢
      omega
  refine ⟨?_, ?_, ?_, ?_, rfl, fun _ _ => rfl, ?_⟩
  · unfold InStream.readInt
    simp only
    split_ifs <;> exact hw
  · unfold InStream.readString
    simp only
    split_ifs <;> exact hw
  · intro D _ numGet
    unfold InStream.readDouble
    simp only
    split_ifs <;> exact hw
  · unfold InStream.readLine
    simp only
    split_ifs <;> exact hw
  · intro α m h w w2 hne
    unfold Handles.call
    rw [Handles.get_set_ne h w w2 _ hne]
    exact ⟨rfl, rfl⟩

theorem readCount_steps_witness :
    (InStream.mk0 { is_open := true, rest := "abc".toList, eofbit := false,
                    failbit := false } "ouf".toList).readInt.2.readCount = 0 + 1 ∧
    ((Handles.call InStream.readInt
        { inf_ := InStream.mk0 IfStream.fresh "inf".toList,
          ouf_ := InStream.mk0 IfStream.fresh "ouf".toList,
          ans_ := InStream.mk0 IfStream.fresh "ans".toList } Which.ouf_).2.get
        Which.ans_).readCount =
      (InStream.mk0 IfStream.fresh "ans".toList).readCount :=
  ⟨(readCount_steps
      (InStream.mk0 { is_open := true, rest := "abc".toList, eofbit := false,
                      failbit := false } "ouf".toList)
      (by decide) (by decide)).1,
   ((readCount_steps (InStream.mk0 IfStream.fresh "ouf".toList)
      (by decide) (by decide)).2.2.2.2.2.2 _
     InStream.readInt _ Which.ouf_ Which.ans_ (by decide)).2⟩

/-! ### Numbers out of the range of `int` -/

/-- C18: on every stream whose unread remainder is whitespace, then a decimal
spelling of a number below -2147483648 or above 2147483647, then nothing or
whitespace, `readInt` ends the process with exit code 2: no value, wrapped,
clamped or other, is returned. The tokens `2147483648` and `-2147483649` are
evaluated. -/
theorem readInt_out_of_range_exits (s : InStream) (N : Int) (sp w rest : List Char)
    (hsp : IsSpelling sp N) (hout : N < INT_MIN ∨ INT_MAX < N)
    (hw : ∀ c ∈ w, isSpace c = true) (hrest : StartsBlank rest)
    (hr : s.stream.rest = w ++ (sp ++ rest)) :
    (∃ t, s.readInt.1 = .error t ∧ t.exitCode = 2) ∧
    (∃ t, (InStream.mk0 { is_open := true, rest := "2147483648".toList, eofbit := false,
                          failbit := false } "ouf".toList).readInt.1 = .error t ∧
          t.exitCode = 2) ∧
    (∃ t, (InStream.mk0 { is_open := true, rest := "-2147483649\n".toList, eofbit := false,
                          failbit := false } "ouf".toList).readInt.1 = .error t ∧
          t.exitCode = 2) := by
  refine ⟨?_, ⟨_, rfl, rfl⟩, ⟨_, rfl, rfl⟩⟩
  apply readInt_of_fail
  cases hg : s.stream.good
  · have h1 : (s.stream.sentry false).1 = false := by
      unfold IfStream.sentry
      simp [hg]
    have h2 := sentry_fail s.stream false h1
    unfold IfStream.extractInt
    cases hs : s.stream.sentry false with
    | mk ok s1 =>
      rw [hs] at h1 h2
      simp only at h1 h2
      subst h1
      simpa using h2
  · exact (extractInt_spelling_any s.stream 0 N sp w rest hsp hw hrest.not_digit hg hr).2 hout

theorem readInt_out_of_range_exits_witness :
    ∃ t, (InStream.mk0 { is_open := true, rest := " 4294967304 ".toList, eofbit := false,
                         failbit := false } "ouf".toList).readInt.1 = .error t ∧
         t.exitCode = 2 :=
  (readInt_out_of_range_exits
    (InStream.mk0 { is_open := true, rest := " 4294967304 ".toList, eofbit := false,
                    failbit := false } "ouf".toList)
    4294967304 "4294967304".toList " ".toList " ".toList
    ⟨"4294967304".toList, by decide, by decide, Or.inl ⟨rfl, by decide⟩⟩
    (Or.inr (by decide)) (by decide) (by intro c hc; cases hc; decide) rfl).1

/-! ### `seekEof` twice -/

theorem ws_ws_eof (st : IfStream) : st.ws.ws.eof = st.ws.eof := by
  cases hg : st.good
  · rw [ws_of_not_good st hg]
    have hg2 : (st.setstate false true).good = false := by
      simp [IfStream.good, IfStream.setstate]
    rw [ws_of_not_good _ hg2]
    simp [IfStream.eof, IfStream.setstate]
  · rw [ws_of_good st hg]
    have hgb := hg
    simp only [IfStream.good, Bool.and_eq_true, Bool.not_eq_true'] at hgb
    cases he : (List.dropWhile isSpace st.rest).isEmpty
    · have hg2 : ({ st with rest := st.rest.dropWhile isSpace, eofbit := false } :
          IfStream).good = true := by
        simp [IfStream.good, hgb.2]
      rw [ws_of_good _ hg2]
      simp only [IfStream.eof]
      rw [List.dropWhile_idempotent, he]
    · have hg2 : ({ st with rest := st.rest.dropWhile isSpace, eofbit := true } :
          IfStream).good = false := by
        simp [IfStream.good]
      rw [ws_of_not_good _ hg2]
      simp [IfStream.eof, IfStream.setstate]

theorem ws_ws_rest (st : IfStream) : st.ws.ws.rest = st.ws.rest := by
  cases hg : st.good
  · rw [ws_of_not_good st hg]
    have hg2 : (st.setstate false true).good = false := by
      simp [IfStream.good, IfStream.setstate]
    rw [ws_of_not_good _ hg2]
    rfl
  · rw [ws_of_good st hg]
    have hgb := hg
    simp only [IfStream.good, Bool.and_eq_true, Bool.not_eq_true'] at hgb
    cases he : (List.dropWhile isSpace st.rest).isEmpty
    · have hg2 : ({ st with rest := st.rest.dropWhile isSpace, eofbit := false } :
          IfStream).good = true := by
        simp [IfStream.good, hgb.2]
      rw [ws_of_good _ hg2]
      simp only
      rw [List.dropWhile_idempotent]
    · have hg2 : ({ st with rest := st.rest.dropWhile isSpace, eofbit := true } :
          IfStream).good = false := by
        simp [IfStream.good]
      rw [ws_of_not_good _ hg2]
      rfl

/-- C19: in every stream state, a second call of `seekEof` right after a first
gives the same boolean as the first and leaves the same unread remainder as
the first left. -/
theorem seekEof_idempotent (s : InStream) :
    s.seekEof.2.seekEof.1 = s.seekEof.1 ∧
    s.seekEof.2.seekEof.2.stream.rest = s.seekEof.2.stream.rest :=
  ⟨ws_ws_eof s.stream, ws_ws_rest s.stream⟩

/-! ### `quitf` with another code -/

/-- C20, the claim as stated fails: the process that `quitf` ends with the
code 256 ends with the exit status 0, and with the code -1 with the exit
status 255. -/
theorem quitf_exit_status_low_bits :
    (quitf 256 "half right".toList).exitStatus = 0 ∧
    (quitf 256 "half right".toList).exitStatus ≠ 256 ∧
    (quitf (-1) "half right".toList).exitStatus = 255 := by
  refine ⟨by decide, by decide, by decide⟩

/-- C20, amended: for every exit code `c` other than 0, 1, 2, 3, 4 and 7,
`quitf` writes to standard output the formatted message as it stands in
its buffer, with no label before it, then a newline, and calls `exit` with `c`
as given, neither refused nor changed by `quitf`. The exit status the process
ends with is the low 8 bits of `c`, which is `c` itself exactly when `c` is
from 0 to 255. The text written is the one written for a verdict kind without
the label, and a message of at most 1023 chars without NUL is written
whole. -/
theorem quitf_other_code (c : Int) (m : List Char)
    (hc : c ≠ 0 ∧ c ≠ 1 ∧ c ≠ 2 ∧ c ≠ 3 ∧ c ≠ 4 ∧ c ≠ 7) :
    (quitf c m).exitCode = c ∧
    (quitf c m).exitStatus = c % 256 ∧
    ((quitf c m).exitStatus = c ↔ 0 ≤ c ∧ c ≤ 255) ∧
    (quitf c m).cout = cString (vsnprintf 1024 m) ++ endl ∧
    (quitf c m).cerr = [] ∧
    (∀ k : Verdict, (quitf k.code m).cout = k.specLabel ++ (quitf c m).cout) ∧
    (m.length ≤ 1023 → (∀ x ∈ m, x ≠ Char.ofNat 0) → (quitf c m).cout = m ++ endl) := by
  obtain ⟨h0, h1, h2, h3, h4, h7⟩ := hc
  have hl : quitfLabel c = [] := by
    unfold quitfLabel
    simp [_ok, _wa, _pe, _fail, _dirt, _points, h0, h1, h2, h3, h4, h7]
  have hcout : (quitf c m).cout = cString (vsnprintf 1024 m) ++ endl := by
    simp only [quitf, hl, List.nil_append]
  have hst : (quitf c m).exitStatus = c % 256 := rfl
  refine ⟨rfl, hst, ?_, hcout, rfl, ?_, ?_⟩
  · rw [hst]
    omega
  · intro k
    rw [hcout]
    simp only [quitf, quitfLabel_code]
  · intro hlen hnul
    rw [hcout]
    simp only [vsnprintf]
    rw [List.take_of_length_le hlen, cString_of_no_nul m hnul]

theorem quitf_other_code_witness :
    (quitf 5 "half right".toList).exitCode = 5 ∧
    (quitf 5 "half right".toList).exitStatus = 5 ∧
    (quitf 5 "half right".toList).cout = "half right".toList ++ endl :=
  have h := quitf_other_code 5 "half right".toList (by decide)
  ⟨h.1, h.2.2.1.mpr (by decide), h.2.2.2.2.2.2 (by decide) (by decide)⟩

/-! ### The sample solution and the checker -/

theorem digitChar_spec (d : Nat) (h : d < 10) :
    isDigit (digitChar d) = true ∧ (digitChar d).toNat - 48 = d := by
  interval_cases d <;> exact ⟨by decide, by decide⟩

theorem showNat_spec (n : Nat) :
    showNat n ≠ [] ∧ (∀ c ∈ showNat n, isDigit c = true) ∧ decimalValue (showNat n) = n := by
  unfold showNat
  by_cases h0 : n = 0
  · subst h0
    simp only [if_true]
    exact ⟨by simp, by decide, by decide⟩
  · simp only [h0, if_false]
    have hlt : ∀ d ∈ Nat.digits 10 n, d < 10 := fun d hd => Nat.digits_lt_base (by decide) hd
    refine ⟨?_, ?_, ?_⟩
    · intro h
      have h2 : Nat.digits 10 n = [] := by simpa using h
      exact (Nat.digits_ne_nil_iff_ne_zero.mpr h0) h2
    · intro c hc
      rw [List.mem_map] at hc
      obtain ⟨d, hd, rfl⟩ := hc
      exact (digitChar_spec d (hlt d (List.mem_reverse.mp hd))).1
    · unfold decimalValue
      rw [List.map_map, ← List.map_reverse, List.reverse_reverse]
      have hid : List.map ((fun c : Char => c.toNat - 48) ∘ digitChar) (Nat.digits 10 n) =
          Nat.digits 10 n := by
        conv_rhs => rw [← List.map_id (Nat.digits 10 n)]
        apply List.map_congr_left
        intro d hd
        exact (digitChar_spec d (hlt d hd)).2
      rw [hid, Nat.ofDigits_digits]

/-- The text `fout << n` writes is a decimal spelling of `n`. -/
theorem showInt_spelling (n : Int) : IsSpelling (showInt n) n := by
  obtain ⟨h1, h2, h3⟩ := showNat_spec n.natAbs
  refine ⟨showNat n.natAbs, h1, h2, ?_⟩
  unfold showInt
  by_cases hn : n < 0
  · right; right
    refine ⟨by simp [hn], ?_⟩
    rw [h3]
    omega
  · left
    refine ⟨by simp [hn], ?_⟩
    rw [h3]
    omega

theorem head_blank_not_digit (w r : List Char) (hw : ∀ c ∈ w, isSpace c = true)
    (hne : w ≠ []) : ∀ c, (w ++ r).head? = some c → isDigit c = false := by
  cases w with
  | nil => exact absurd rfl hne
  | cons a t =>
    intro c hc
    simp only [List.cons_append, List.head?_cons, Option.some.injEq] at hc
    subst hc
    exact isSpace_not_isDigit a (hw a (List.mem_cons_self a t))

theorem add_fileio_output (fs : List Char → Option (List Char)) (a b : Int)
    (w0 spA w1 spB rest : List Char)
    (ha1 : INT_MIN ≤ a) (ha2 : a ≤ INT_MAX) (hb1 : INT_MIN ≤ b) (hb2 : b ≤ INT_MAX)
    (hab1 : INT_MIN ≤ a + b) (hab2 : a + b ≤ INT_MAX)
    (hspA : IsSpelling spA a) (hspB : IsSpelling spB b)
    (hw0 : ∀ c ∈ w0, isSpace c = true) (hw1 : ∀ c ∈ w1, isSpace c = true) (hw1ne : w1 ≠ [])
    (hrest : StartsBlank rest)
    (hin : fs "input.txt".toList = some (w0 ++ (spA ++ (w1 ++ (spB ++ rest))))) :
    add_fileio fs = showInt (a + b) ++ endl := by
  have hopen : IfStream.fresh.openFile fs "input.txt".toList =
      { is_open := true, rest := w0 ++ (spA ++ (w1 ++ (spB ++ rest))), eofbit := false,
        failbit := false } := by
    unfold IfStream.openFile
    rw [hin]
    rfl
  have h1 := (extractInt_spelling_any (IfStream.fresh.openFile fs "input.txt".toList)
    0 a spA w0 (w1 ++ (spB ++ rest)) hspA hw0
    (head_blank_not_digit w1 _ hw1 hw1ne)
    (by rw [hopen]; rfl) (by rw [hopen])).1 ha1 ha2
  have hne : (w1 ++ (spB ++ rest)).isEmpty = false := by
    cases w1 with
    | nil => exact absurd rfl hw1ne
    | cons x t => rfl
  have h2 := (extractInt_spelling_any
    ({ IfStream.fresh.openFile fs "input.txt".toList with
        rest := w1 ++ (spB ++ rest), eofbit := (w1 ++ (spB ++ rest)).isEmpty })
    0 b spB w1 rest hspB hw1 hrest.not_digit
    (by rw [hopen, hne]; rfl) rfl).1 hb1 hb2
  unfold add_fileio
  simp only [h1, h2]
  rw [wrapInt_of_range (a + b) hab1 hab2]

/-- C16: when `input.txt` holds spellings of `a` and `b` separated by
whitespace (with `a`, `b` and `a + b` in the 32-bit signed range), the sample
solution writes to `output.txt` the decimal text of `a + b` and a newline; on
that file `readInt` returns `a + b` and `seekEof` then gives `true`. -/
theorem add_fileio_then_checker (fs : List Char → Option (List Char)) (a b : Int)
    (w0 spA w1 spB rest name : List Char)
    (ha1 : INT_MIN ≤ a) (ha2 : a ≤ INT_MAX) (hb1 : INT_MIN ≤ b) (hb2 : b ≤ INT_MAX)
    (hab1 : INT_MIN ≤ a + b) (hab2 : a + b ≤ INT_MAX)
    (hspA : IsSpelling spA a) (hspB : IsSpelling spB b)
    (hw0 : ∀ c ∈ w0, isSpace c = true) (hw1 : ∀ c ∈ w1, isSpace c = true) (hw1ne : w1 ≠ [])
    (hrest : StartsBlank rest)
    (hin : fs "input.txt".toList = some (w0 ++ (spA ++ (w1 ++ (spB ++ rest))))) :
    add_fileio fs = showInt (a + b) ++ endl ∧
    IsSpelling (showInt (a + b)) (a + b) ∧
    (InStream.mk0 { is_open := true, rest := add_fileio fs, eofbit := false,
                    failbit := false } name).readInt.1 = .ok (a + b) ∧
    (InStream.mk0 { is_open := true, rest := add_fileio fs, eofbit := false,
                    failbit := false } name).readInt.2.seekEof.1 = true := by
  have hout := add_fileio_output fs a b w0 spA w1 spB rest ha1 ha2 hb1 hb2 hab1 hab2
    hspA hspB hw0 hw1 hw1ne hrest hin
  have hsp := showInt_spelling (a + b)
  have hread := readInt_leading
    (InStream.mk0 { is_open := true, rest := add_fileio fs, eofbit := false,
                    failbit := false } name)
    (a + b) (showInt (a + b)) [] endl hab1 hab2 hsp (by simp)
    (by intro c hc; cases hc; decide) rfl (by rw [hout]; rfl)
  refine ⟨hout, hsp, ?_, ?_⟩
  · rw [hread]
  · rw [hread]
    rfl

theorem add_fileio_then_checker_witness :
    add_fileio (fun p => if p = "input.txt".toList then some "3 5".toList else none) =
      "8\n".toList ∧
    (InStream.mk0 { is_open := true,
                    rest := add_fileio
                      (fun p => if p = "input.txt".toList then some "3 5".toList else none),
                    eofbit := false, failbit := false } "ouf".toList).readInt.1 = .ok 8 ∧
    (InStream.mk0 { is_open := true,
                    rest := add_fileio
                      (fun p => if p = "input.txt".toList then some "3 5".toList else none),
                    eofbit := false, failbit := false } "ouf".toList).readInt.2.seekEof.1 =
      true := by
  have h := add_fileio_then_checker
    (fun p => if p = "input.txt".toList then some "3 5".toList else none) 3 5
    [] "3".toList " ".toList "5".toList [] "ouf".toList
    (by decide) (by decide) (by decide) (by decide) (by decide) (by decide)
    ⟨"3".toList, by decide, by decide, Or.inl ⟨rfl, by decide⟩⟩
    ⟨"5".toList, by decide, by decide, Or.inl ⟨rfl, by decide⟩⟩
    (by decide) (by decide) (by decide) (by intro c hc; cases hc) (by decide)
  refine ⟨?_, h.2.2.1, h.2.2.2⟩
  rw [h.1]
  norm_num [showInt, showNat, digitChar, endl]

/-! ### A whole file of integers -/

theorem readInts_holds (ns : List Int) :
    ∀ s : InStream, Reachable s → HoldsIntegers ns s.stream.rest →
      (readInts ns.length s).1 = .ok ns ∧ Reachable (readInts ns.length s).2 ∧
      (∀ c ∈ (readInts ns.length s).2.stream.rest, isSpace c = true) := by
  induction ns with
  | nil =>
    intro s hs h
    exact ⟨rfl, hs, h⟩
  | cons n ns ih =>
    intro s hs h
    obtain ⟨w, sp, r2, hr, hw, hsp, hlo, hhi, hblank, htail⟩ := h
    have hread := readInt_leading s n sp w r2 hlo hhi hsp hw hblank.not_digit
      (hs.good_of_rest w sp r2 hsp hr) hr
    have hs1 := Reachable.readInt hs hread
    obtain ⟨i1, i2, i3⟩ := ih _ hs1 htail
    simp only [List.length_cons, readInts, hread]
    rcases hk : readInts ns.length
        { s with readCount := wrapInt (s.readCount + 1),
                 stream := { s.stream with rest := r2, eofbit := r2.isEmpty } } with ⟨res, s2⟩
    rw [hk] at i1 i2 i3
    simp only at i1 i2 i3
    subst i1
    exact ⟨rfl, i2, i3⟩

/-- C17: when the unread remainder of a handle a checker can reach holds the
integers `n1 .. nk` of the 32-bit signed range as decimal spellings separated
by whitespace, with optional whitespace first and last, `k` calls of `readInt`
one after the other return `n1 .. nk` in order, `seekEof` then gives `true`,
and one more `readInt`, after or instead of the `seekEof`, ends the process
with exit code 2. -/
theorem readInts_whole_file (s : InStream) (ns : List Int) (hs : Reachable s)
    (h : HoldsIntegers ns s.stream.rest) :
    (readInts ns.length s).1 = .ok ns ∧
    (readInts ns.length s).2.seekEof.1 = true ∧
    (∃ t, (readInts ns.length s).2.seekEof.2.readInt.1 = .error t ∧ t.exitCode = 2) ∧
    (∃ t, (readInts ns.length s).2.readInt.1 = .error t ∧ t.exitCode = 2) := by
  obtain ⟨h1, h2, h3⟩ := readInts_holds ns s hs h
  refine ⟨h1, (ws_eof _ h2.inv).mpr h3, ?_, ?_⟩
  · apply readInt_of_fail
    apply extractInt_blank
    intro c hc
    have hrest : (readInts ns.length s).2.seekEof.2.stream.rest =
        (readInts ns.length s).2.stream.rest.dropWhile isSpace := ws_rest _ h2.inv
    rw [hrest, List.dropWhile_eq_nil_iff.mpr h3] at hc
    cases hc
  · exact readInt_of_fail _ (extractInt_blank _ _ h3)

theorem readInts_whole_file_witness :
    (readInts 3 (InStream.mk0 { is_open := true, rest := " 1 -2\n+03 ".toList,
                                eofbit := false, failbit := false } "ouf".toList)).1 =
      .ok [1, -2, 3] ∧
    (readInts 3 (InStream.mk0 { is_open := true, rest := " 1 -2\n+03 ".toList,
                                eofbit := false, failbit := false } "ouf".toList)).2.seekEof.1 =
      true :=
  have h := readInts_whole_file
    (InStream.mk0 { is_open := true, rest := " 1 -2\n+03 ".toList, eofbit := false,
                    failbit := false } "ouf".toList)
    [1, -2, 3] (Reachable.opened " 1 -2\n+03 ".toList "ouf".toList)
    ⟨" ".toList, "1".toList, " -2\n+03 ".toList, rfl, by decide,
      ⟨"1".toList, by decide, by decide, Or.inl ⟨rfl, by decide⟩⟩, by decide, by decide,
      by intro c hc; cases hc; decide,
      ⟨" ".toList, "-2".toList, "\n+03 ".toList, rfl, by decide,
        ⟨"2".toList, by decide, by decide, Or.inr (Or.inr ⟨rfl, by decide⟩)⟩,
        by decide, by decide, by intro c hc; cases hc; decide,
        ⟨"\n".toList, "+03".toList, " ".toList, rfl, by decide,
          ⟨"03".toList, by decide, by decide, Or.inr (Or.inl ⟨rfl, by decide⟩)⟩,
          by decide, by decide, by intro c hc; cases hc; decide,
          (by decide : ∀ c ∈ " ".toList, isSpace c = true)⟩⟩⟩
  ⟨h.1, h.2.1⟩

end Testlib
